import Mathlib

/-!
Verification of the plc-gateway MC-protocol core: device-spec parsing,
value codec, 3E response handling, device-data encoding, and the batched
read dispatcher.  Python sources are embedded shallowly: byte strings
become `List Nat`, fallible code returns `Except PyErr`, and the PLC
socket is abstracted as an oracle record whose calls are traced.
-/

set_option maxHeartbeats 1000000

/-! ## Byte-string utilities

`toBytesLE n v` models Python `v.to_bytes(n, "little")` on an in-range
nonnegative value; `fromBytesLE` models `int.from_bytes(bs, "little")`
for byte lists produced by the encoder. -/

def toBytesLE : Nat → Nat → List Nat
  | 0, _ => []
  | n + 1, v => v % 256 :: toBytesLE n (v / 256)

def fromBytesLE : List Nat → Nat
  | [] => 0
  | b :: bs => b + 256 * fromBytesLE bs

theorem toBytesLE_length (n v : Nat) : (toBytesLE n v).length = n := by
  induction n generalizing v with
  | zero => rfl
  | succ n ih => simp [toBytesLE, ih]

theorem fromBytesLE_toBytesLE (n v : Nat) (h : v < 256 ^ n) :
    fromBytesLE (toBytesLE n v) = v := by
  induction n generalizing v with
  | zero =>
      simp only [pow_zero, Nat.lt_one_iff] at h
      simp [toBytesLE, fromBytesLE, h]
  | succ n ih =>
      have hlt : v / 256 < 256 ^ n := by
        rw [Nat.div_lt_iff_lt_mul (by norm_num : 0 < 256)]
        calc v < 256 ^ (n + 1) := h
          _ = 256 ^ n * 256 := by rw [pow_succ]
      simp only [toBytesLE, fromBytesLE, ih _ hlt]
      exact Nat.mod_add_div v 256

/-! ## Hexadecimal rendering and parsing

`hexStr u` models Python `format(u, "x").upper()` as a list of ASCII
codes (the source composes `format` with `.upper()`, so digits are
produced uppercase directly).  The recursion is expressed with explicit
fuel so that all definitions reduce in the kernel. -/

def hexDigitCode (d : Nat) : Nat := if d < 10 then 48 + d else 55 + d

def hexCharsF : Nat → Nat → List Nat
  | 0, _ => []
  | f + 1, u =>
      if u < 16 then [hexDigitCode u]
      else hexCharsF f (u / 16) ++ [hexDigitCode (u % 16)]

def hexStr (u : Nat) : List Nat := hexCharsF (u + 1) u

theorem hexCharsF_congr (f g u : Nat) (hf : u < f) (hg : u < g) :
    hexCharsF f u = hexCharsF g u := by
  induction f generalizing g u with
  | zero => omega
  | succ f ih =>
      cases g with
      | zero => omega
      | succ g =>
          simp only [hexCharsF]
          split
          · rfl
          · have h16 : 16 ≤ u := by omega
            have hd : u / 16 < u := Nat.div_lt_self (by omega) (by omega)
            rw [ih g (u / 16) (by omega) (by omega)]

/-- Python `'0'.rjust`-style left padding with the ASCII code of `'0'`. -/
def padZeroCodes (w : Nat) (l : List Nat) : List Nat :=
  List.replicate (w - l.length) 48 ++ l

/-- Value of a single hex-digit ASCII code, as accepted by `int(s, 16)`. -/
def hexCodeVal (c : Nat) : Option Nat :=
  if 48 ≤ c ∧ c ≤ 57 then some (c - 48)
  else if 65 ≤ c ∧ c ≤ 70 then some (c - 55)
  else if 97 ≤ c ∧ c ≤ 102 then some (c - 87)
  else none

def parseHexAux (acc : Nat) : List Nat → Option Nat
  | [] => some acc
  | c :: cs =>
      match hexCodeVal c with
      | some d => parseHexAux (16 * acc + d) cs
      | none => none

/-- `int(s, 16)` on a nonempty string of hex-digit codes (`int("")` raises). -/
def parseHexCodes (l : List Nat) : Option Nat :=
  if l = [] then none else parseHexAux 0 l

theorem hexDigitCode_val (d : Nat) (h : d < 16) :
    hexCodeVal (hexDigitCode d) = some d := by
  interval_cases d <;> rfl

theorem parseHexAux_append (acc : Nat) (l₁ l₂ : List Nat) :
    parseHexAux acc (l₁ ++ l₂) =
      match parseHexAux acc l₁ with
      | some a => parseHexAux a l₂
      | none => none := by
  induction l₁ generalizing acc with
  | nil => simp [parseHexAux]
  | cons c cs ih =>
      simp only [List.cons_append, parseHexAux]
      cases hexCodeVal c with
      | none => rfl
      | some d => exact ih _

theorem parseHexAux_hexCharsF (f u acc : Nat) (hf : u < f) :
    parseHexAux acc (hexCharsF f u) =
      some (acc * 16 ^ (hexCharsF f u).length + u) := by
  induction f generalizing u acc with
  | zero => omega
  | succ f ih =>
      simp only [hexCharsF]
      split
      · next h =>
          simp [parseHexAux, hexDigitCode_val u h, Nat.mul_comm]
      · next h =>
          have h16 : 16 ≤ u := by omega
          have hd : u / 16 < f := by
            have := Nat.div_lt_self (show 0 < u by omega) (show 1 < 16 by omega)
            omega
          rw [parseHexAux_append]
          rw [ih (u / 16) acc hd]
          have hm : u % 16 < 16 := Nat.mod_lt _ (by omega)
          simp only [parseHexAux, hexDigitCode_val _ hm]
          rw [List.length_append, List.length_cons, List.length_nil]
          have key : ∀ L : Nat, 16 * (acc * 16 ^ L + u / 16) + u % 16 =
              acc * 16 ^ (L + 1) + u := by
            intro L
            have hu : 16 * (u / 16) + u % 16 = u := Nat.div_add_mod u 16
            calc 16 * (acc * 16 ^ L + u / 16) + u % 16
                = acc * (16 ^ L * 16) + (16 * (u / 16) + u % 16) := by ring
              _ = acc * 16 ^ (L + 1) + u := by rw [hu, pow_succ]
          simp [key]

theorem parseHexAux_replicate_zero (k : Nat) (l : List Nat) :
    parseHexAux 0 (List.replicate k 48 ++ l) = parseHexAux 0 l := by
  induction k with
  | zero => rfl
  | succ k ih =>
      have h48 : hexCodeVal 48 = some 0 := rfl
      simp only [List.replicate_succ, List.cons_append, parseHexAux, h48]
      simpa using ih

theorem hexStr_ne_nil (u : Nat) : hexStr u ≠ [] := by
  unfold hexStr hexCharsF
  split
  · simp
  · simp

theorem parseHexCodes_padZero_hexStr (w u : Nat) :
    parseHexCodes (padZeroCodes w (hexStr u)) = some u := by
  unfold parseHexCodes padZeroCodes
  have hne : List.replicate (w - (hexStr u).length) 48 ++ hexStr u ≠ [] := by
    intro h
    rcases List.append_eq_nil.mp h with ⟨-, h2⟩
    exact hexStr_ne_nil u h2
  rw [if_neg hne, parseHexAux_replicate_zero]
  unfold hexStr
  rw [parseHexAux_hexCharsF (u + 1) u 0 (Nat.lt_succ_self u)]
  simp

/-! ## Exceptions (`mcprotocol/errors.py` and Python builtins)

`PyErr` is the error type of the embedding; `pyStr` models Python's
`str(e)` on these exceptions (quotation marks inside builtin messages
are elided). -/

inductive PyErr where
  | valueError (msg : String)
  | overflowError
  | mcProtocolError (errorcode : Int) (message : Option String)
  | unsupportedCommandError
  | deviceCodeError (plctype : String) (devicename : String)
deriving Repr, DecidableEq

deriving instance DecidableEq for Except

/-- `format(errorcode, "x").rjust(4, "0").upper()` on a nonnegative code. -/
def hex4Upper (code : Int) : String :=
  String.mk ((padZeroCodes 4 (hexStr code.toNat)).map Char.ofNat)

def pyStr : PyErr → String
  | .valueError msg => msg
  | .overflowError => "int too big to convert"
  | .mcProtocolError code _ => "MC protocol error: 0x" ++ hex4Upper code
  | .unsupportedCommandError =>
      "This command is not supported by the connected module. " ++
      "If connecting to CPU module, please use E71 module."
  | .deviceCodeError plctype devicename =>
      "Device " ++ devicename ++ " is not supported on " ++ plctype ++
      " series PLC.\n" ++
      "For hexadecimal devices (X, Y, B, W, SB, SW, DX, DY, ZR) with alphabetic addresses,\n" ++
      "insert 0 between device name and address (e.g., XFFF to X0FFF)"

/-! ## Value codec (`mcprotocol/core.py`) -/

/-- Communication modes of the 3E codec. -/
inductive CommType where
  | binary
  | ascii
deriving Repr, DecidableEq

/-- Width modes of `encode_value` / `decode_value` / `twos_complement`. -/
inductive PyMode where
  | byte
  | short
  | long
deriving Repr, DecidableEq

/-- `{"byte": 1, "short": 2, "long": 4}` of `encode_value`. -/
def sizeMap : PyMode → Nat
  | .byte => 1
  | .short => 2
  | .long => 4

/-- `{"byte": 8, "short": 16, "long": 32}` of `twos_complement`. -/
def bitSizeMap (m : PyMode) : Nat := 8 * sizeMap m

/-- `twos_complement(val, mode)` from `mcprotocol/core.py`.  The source
takes the `int` produced by `int(hex_chars, 16)`, hence a nonnegative
value; the test `val & (1 << (bit_size - 1)) != 0` is written here as
the equivalent bit extraction `val / 2 ^ (bit_size - 1) % 2 = 1`. -/
def twos_complement (val : Nat) (mode : PyMode) : Int :=
  let bit_size := bitSizeMap mode
  if val / 2 ^ (bit_size - 1) % 2 = 1 then (val : Int) - 2 ^ bit_size
  else (val : Int)

/-- `MCProtocolCore.encode_value`.  Binary mode is Python
`value.to_bytes(size, "little", signed=signed)` (raising `OverflowError`
out of range); ASCII mode masks with `value & (2^bits - 1)` and renders
uppercase zero-padded hex. -/
def encode_value (value : Int) (mode : PyMode) (commtype : CommType)
    (signed : Bool) : Except PyErr (List Nat) :=
  match commtype with
  | .binary =>
      let n := sizeMap mode
      if signed then
        if -((2 : Int) ^ (8 * n - 1)) ≤ value ∧ value < 2 ^ (8 * n - 1) then
          .ok (toBytesLE n (value % (2 : Int) ^ (8 * n)).toNat)
        else .error .overflowError
      else
        if 0 ≤ value ∧ value < (2 : Int) ^ (8 * n) then
          .ok (toBytesLE n value.toNat)
        else .error .overflowError
  | .ascii =>
      let n := sizeMap mode
      .ok (padZeroCodes (2 * n) (hexStr (value % (2 : Int) ^ (8 * n)).toNat))

/-- `MCProtocolCore.decode_value`.  Binary mode is
`int.from_bytes(data, "little", signed=signed)`; ASCII mode is
`int(data.decode(), 16)` followed by `twos_complement` when signed. -/
def decode_value (data : List Nat) (mode : PyMode) (commtype : CommType)
    (signed : Bool) : Except PyErr Int :=
  match commtype with
  | .binary =>
      let u := fromBytesLE data
      if signed then
        if (2 : Int) ^ (8 * data.length - 1) ≤ (u : Int) then
          .ok ((u : Int) - 2 ^ (8 * data.length))
        else .ok u
      else .ok u
  | .ascii =>
      match parseHexCodes data with
      | none => .error (.valueError "invalid literal for int() with base 16")
      | some u => .ok (if signed then twos_complement u mode else (u : Int))

/-- The representable range of `(mode, signed)`:
two's-complement for signed values, `[0, 2^bits)` otherwise. -/
def representable (mode : PyMode) (signed : Bool) (v : Int) : Prop :=
  match signed with
  | true => -((2 : Int) ^ (8 * sizeMap mode - 1)) ≤ v ∧ v < 2 ^ (8 * sizeMap mode - 1)
  | false => 0 ≤ v ∧ v < (2 : Int) ^ (8 * sizeMap mode)

instance (mode : PyMode) (signed : Bool) (v : Int) :
    Decidable (representable mode signed v) := by
  unfold representable
  cases signed <;> exact instDecidableAnd

/-! ## C6 support: round-trip of the value codec -/

theorem pow256_eq_pow2 (n : Nat) : (256 : Nat) ^ n = 2 ^ (8 * n) := by
  rw [show (256 : Nat) = 2 ^ 8 by norm_num, ← pow_mul]

theorem div_pow_pred_mod_two (k u : Nat) (hk : 1 ≤ k) (hu : u < 2 ^ k) :
    (u / 2 ^ (k - 1) % 2 = 1) ↔ 2 ^ (k - 1) ≤ u := by
  have h2 : (2 : Nat) ^ k = 2 ^ (k - 1) * 2 := by
    rw [← pow_succ]
    congr 1
    omega
  have hP : 0 < (2 : Nat) ^ (k - 1) := pow_pos (by norm_num) _
  have hd : u / 2 ^ (k - 1) < 2 := by
    rw [Nat.div_lt_iff_lt_mul hP]
    omega
  have hq : u / 2 ^ (k - 1) % 2 = u / 2 ^ (k - 1) := Nat.mod_eq_of_lt hd
  have hle : 1 ≤ u / 2 ^ (k - 1) ↔ 2 ^ (k - 1) ≤ u := Nat.one_le_div_iff hP
  rw [hq, ← hle]
  omega

theorem emod_two_pow_toNat_lt (k : Nat) (v : Int) :
    (v % (2 : Int) ^ k).toNat < 2 ^ k := by
  have hP : (0 : Int) < 2 ^ k := pow_pos (by norm_num) _
  have h1 : v % (2 : Int) ^ k < 2 ^ k := Int.emod_lt_of_pos v hP
  have h2 : ((v % (2 : Int) ^ k).toNat : Int) ≤ v % (2 : Int) ^ k := by
    rw [Int.toNat_of_nonneg (Int.emod_nonneg v (by positivity))]
  have : ((v % (2 : Int) ^ k).toNat : Int) < ((2 ^ k : Nat) : Int) := by
    push_cast
    omega
  exact_mod_cast this

theorem emod_two_pow_cases (k : Nat) (hk : 1 ≤ k) (v : Int)
    (hlo : -((2 : Int) ^ (k - 1)) ≤ v) (hhi : v < (2 : Int) ^ (k - 1)) :
    ((v % (2 : Int) ^ k).toNat : Int) = if 0 ≤ v then v else v + 2 ^ k := by
  have hsplit : (2 : Int) ^ k = 2 ^ (k - 1) * 2 := by
    rw [← pow_succ]
    congr 1
    omega
  have hPk : (0 : Int) < 2 ^ (k - 1) := pow_pos (by norm_num) _
  by_cases h0 : 0 ≤ v
  · rw [if_pos h0]
    rw [Int.emod_eq_of_lt h0 (by omega)]
    exact Int.toNat_of_nonneg h0
  · rw [if_neg h0]
    have hrw : v % (2 : Int) ^ k = (v + 2 ^ k) % 2 ^ k := by
      conv_rhs => rw [show v + (2 : Int) ^ k = v + 2 ^ k * 1 by ring]
      rw [Int.add_mul_emod_self_left]
    rw [hrw, Int.emod_eq_of_lt (by omega) (by omega)]
    exact Int.toNat_of_nonneg (by omega)

theorem signed_fold_core (k : Nat) (hk : 1 ≤ k) (v : Int)
    (hlo : -((2 : Int) ^ (k - 1)) ≤ v) (hhi : v < (2 : Int) ^ (k - 1)) :
    (if (2 : Int) ^ (k - 1) ≤ ((v % (2 : Int) ^ k).toNat : Int)
     then ((v % (2 : Int) ^ k).toNat : Int) - 2 ^ k
     else ((v % (2 : Int) ^ k).toNat : Int)) = v := by
  have hsplit : (2 : Int) ^ k = 2 ^ (k - 1) * 2 := by
    rw [← pow_succ]
    congr 1
    omega
  have hPk : (0 : Int) < 2 ^ (k - 1) := pow_pos (by norm_num) _
  rw [emod_two_pow_cases k hk v hlo hhi]
  by_cases h0 : 0 ≤ v
  · rw [if_pos h0, if_neg (by omega)]
  · rw [if_neg h0, if_pos (by omega)]
    omega

theorem sizeMap_pos (mode : PyMode) : 1 ≤ sizeMap mode := by
  cases mode <;> norm_num [sizeMap]

theorem roundtrip_binary_unsigned (mode : PyMode) (v : Int)
    (h0 : 0 ≤ v) (h1 : v < (2 : Int) ^ (8 * sizeMap mode)) :
    (encode_value v mode .binary false).bind
      (fun bs => decode_value bs mode .binary false) = .ok v := by
  simp only [encode_value, if_pos (And.intro h0 h1), Except.bind]
  have hv : v.toNat < 256 ^ sizeMap mode := by
    rw [pow256_eq_pow2]
    have : ((2 ^ (8 * sizeMap mode) : Nat) : Int) = (2 : Int) ^ (8 * sizeMap mode) := by
      push_cast
      rfl
    omega
  simp only [decode_value, Bool.false_eq_true, if_false,
    fromBytesLE_toBytesLE _ _ hv]
  rw [Int.toNat_of_nonneg h0]

theorem roundtrip_binary_signed (mode : PyMode) (v : Int)
    (hlo : -((2 : Int) ^ (8 * sizeMap mode - 1)) ≤ v)
    (hhi : v < (2 : Int) ^ (8 * sizeMap mode - 1)) :
    (encode_value v mode .binary true).bind
      (fun bs => decode_value bs mode .binary true) = .ok v := by
  have hk : 1 ≤ 8 * sizeMap mode := by
    have := sizeMap_pos mode
    omega
  simp only [encode_value, if_pos (And.intro hlo hhi), Except.bind]
  have hu : (v % (2 : Int) ^ (8 * sizeMap mode)).toNat < 256 ^ sizeMap mode := by
    rw [pow256_eq_pow2]
    exact emod_two_pow_toNat_lt _ v
  simp only [decode_value, toBytesLE_length,
    fromBytesLE_toBytesLE _ _ hu, if_true]
  have hfold := signed_fold_core (8 * sizeMap mode) hk v hlo hhi
  split
  · next hc =>
      rw [if_pos hc] at hfold
      rw [hfold]
  · next hc =>
      rw [if_neg hc] at hfold
      rw [hfold]

theorem roundtrip_ascii_unsigned (mode : PyMode) (v : Int)
    (h0 : 0 ≤ v) (h1 : v < (2 : Int) ^ (8 * sizeMap mode)) :
    (encode_value v mode .ascii false).bind
      (fun bs => decode_value bs mode .ascii false) = .ok v := by
  simp only [encode_value, Except.bind]
  have hv : v % (2 : Int) ^ (8 * sizeMap mode) = v :=
    Int.emod_eq_of_lt h0 h1
  simp only [decode_value, hv, parseHexCodes_padZero_hexStr]
  simp only [Bool.false_eq_true, if_false]
  rw [Int.toNat_of_nonneg h0]

theorem roundtrip_ascii_signed (mode : PyMode) (v : Int)
    (hlo : -((2 : Int) ^ (8 * sizeMap mode - 1)) ≤ v)
    (hhi : v < (2 : Int) ^ (8 * sizeMap mode - 1)) :
    (encode_value v mode .ascii true).bind
      (fun bs => decode_value bs mode .ascii true) = .ok v := by
  have hk : 1 ≤ 8 * sizeMap mode := by
    have := sizeMap_pos mode
    omega
  simp only [encode_value, Except.bind]
  simp only [decode_value, parseHexCodes_padZero_hexStr, if_true]
  unfold twos_complement
  have hbit : bitSizeMap mode = 8 * sizeMap mode := rfl
  rw [hbit]
  have hult : (v % (2 : Int) ^ (8 * sizeMap mode)).toNat < 2 ^ (8 * sizeMap mode) :=
    emod_two_pow_toNat_lt _ v
  have hcond := div_pow_pred_mod_two (8 * sizeMap mode)
    (v % (2 : Int) ^ (8 * sizeMap mode)).toNat hk hult
  have hcast : ((2 ^ (8 * sizeMap mode - 1) : Nat) : Int) =
      (2 : Int) ^ (8 * sizeMap mode - 1) := by
    push_cast
    rfl
  have hfold := signed_fold_core (8 * sizeMap mode) hk v hlo hhi
  by_cases hge : 2 ^ (8 * sizeMap mode - 1) ≤ (v % (2 : Int) ^ (8 * sizeMap mode)).toNat
  · rw [if_pos (hcond.mpr hge)]
    have hgeI : (2 : Int) ^ (8 * sizeMap mode - 1) ≤
        ((v % (2 : Int) ^ (8 * sizeMap mode)).toNat : Int) := by
      rw [← hcast]
      exact_mod_cast hge
    rw [if_pos hgeI] at hfold
    rw [hfold]
  · rw [if_neg (fun hc => hge (hcond.mp hc))]
    have hgeI : ¬ (2 : Int) ^ (8 * sizeMap mode - 1) ≤
        ((v % (2 : Int) ^ (8 * sizeMap mode)).toNat : Int) := by
      rw [← hcast]
      intro hc
      exact hge (by exact_mod_cast hc)
    rw [if_neg hgeI] at hfold
    rw [hfold]

/-- C6: for every mode in {byte, short, long}, every commtype in
{binary, ascii}, every signed flag, and every integer in the
representable range of `(mode, signed)`, decoding the encoding of the
value gives the value back. -/
theorem value_codec_roundtrip (mode : PyMode) (commtype : CommType)
    (signed : Bool) (v : Int) (h : representable mode signed v) :
    (encode_value v mode commtype signed).bind
      (fun bs => decode_value bs mode commtype signed) = .ok v := by
  cases commtype <;> cases signed <;>
    simp only [representable] at h
  · exact roundtrip_binary_unsigned mode v h.1 h.2
  · exact roundtrip_binary_signed mode v h.1 h.2
  · exact roundtrip_ascii_unsigned mode v h.1 h.2
  · exact roundtrip_ascii_signed mode v h.1 h.2

/-- Witness for C6 at `mode = short`, `commtype = ascii`, `signed = true`,
`v = -5`. -/
theorem value_codec_roundtrip_witness :
    representable .short true (-5) ∧
    (encode_value (-5) .short .ascii true).bind
      (fun bs => decode_value bs .short .ascii true) = .ok (-5) :=
  ⟨by decide, value_codec_roundtrip .short .ascii true (-5) (by decide)⟩

/-! ## Character classes and Python `int()` (grammar layer)

Characters are classified by ASCII code so that the regex character
classes of the source translate directly. -/

def isDigitChar (c : Char) : Bool := 48 ≤ c.toNat && c.toNat ≤ 57

def isAsciiAlphaChar (c : Char) : Bool :=
  (65 ≤ c.toNat && c.toNat ≤ 90) || (97 ≤ c.toNat && c.toNat ≤ 122)

def isHexDigitChar (c : Char) : Bool := (hexCodeVal c.toNat).isSome

/-- Value of a nonempty all-digit numeral. -/
def decVal (cs : List Char) : Nat :=
  cs.foldl (fun a c => 10 * a + (c.toNat - 48)) 0

/-- Value of a nonempty all-hex-digit numeral. -/
def hexVal (cs : List Char) : Nat :=
  cs.foldl (fun a c => 16 * a + (hexCodeVal c.toNat).getD 0) 0

def pyIntDecCore (cs : List Char) : Option Nat :=
  if cs ≠ [] ∧ cs.all isDigitChar = true then some (decVal cs) else none

/-- Python `int(s, 10)`: optional sign, then a nonempty digit string. -/
def pyIntDec : List Char → Option Int
  | [] => none
  | c :: rest =>
      if c = '-' then (pyIntDecCore rest).map (fun n => -(n : Int))
      else if c = '+' then (pyIntDecCore rest).map (fun n => (n : Int))
      else (pyIntDecCore (c :: rest)).map (fun n => (n : Int))

def pyIntHexCore (cs : List Char) : Option Nat :=
  let cs2 := if cs.take 2 = ['0', 'x'] ∨ cs.take 2 = ['0', 'X'] then cs.drop 2 else cs
  if cs2 ≠ [] ∧ cs2.all isHexDigitChar = true then some (hexVal cs2) else none

/-- Python `int(s, 16)`: optional sign, optional `0x`/`0X`, then a
nonempty hex-digit string. -/
def pyIntHex : List Char → Option Int
  | [] => none
  | c :: rest =>
      if c = '-' then (pyIntHexCore rest).map (fun n => -(n : Int))
      else if c = '+' then (pyIntHexCore rest).map (fun n => (n : Int))
      else (pyIntHexCore (c :: rest)).map (fun n => (n : Int))

/-- Python `device_spec.split(":", 1)`: device part, and the length part
when a colon is present. -/
def splitColon1 (cs : List Char) : List Char × Option (List Char) :=
  if ':' ∈ cs then (cs.takeWhile (· ≠ ':'), some ((cs.dropWhile (· ≠ ':')).drop 1))
  else (cs, none)

/-! ## Device-spec parser of `device_readers/base_device_reader.py` -/

/-- The `known_devices` list of `DeviceReader.parse_device_spec`, two-char
kinds before one-char kinds, in source order. -/
def knownDevices : List String :=
  ["SM", "SD", "CN", "CC", "CS", "CX", "TN", "TC", "TS", "TX", "SB", "SW", "DX", "DY",
   "X", "Y", "B", "M", "D", "T", "C", "Z", "H", "L", "F", "V", "R", "W", "S", "U", "N"]

/-- The scan loop of the base parser: first known kind that is a
case-insensitive prefix of the device part and leaves a nonempty
`[0-9A-Fa-f]+` remainder. -/
def findKnownDevice : List String → List Char → Option (String × List Char)
  | [], _ => none
  | kd :: rest, dp =>
      let pot := dp.drop kd.length
      if (dp.map Char.toUpper).take kd.length = kd.data ∧ pot ≠ [] ∧
          pot.all isHexDigitChar = true then
        some (kd, pot)
      else findKnownDevice rest dp

def parseBaseCore (orig dp : List Char) (len : Int) :
    Except PyErr (String × Int × Int) :=
  match findKnownDevice knownDevices dp with
  | none =>
      .error (.valueError ("Invalid device specification: " ++ String.mk orig ++
        " - 対応デバイス: X,Y,B,M,D,T,C,Z,H,L,F,V,R,W,S,U,N,SM,SD等"))
  | some (kd, addrStr) =>
      if kd ∈ (["X", "Y", "B"] : List String) then
        match pyIntHex addrStr with
        | some a => .ok (kd, a, len)
        | none =>
            .error (.valueError ("invalid literal for int() with base 16: " ++
              String.mk addrStr))
      else
        match pyIntDec addrStr with
        | some a => .ok (kd, a, len)
        | none =>
            .error (.valueError ("invalid literal for int() with base 10: " ++
              String.mk addrStr))

/-- `DeviceReader.parse_device_spec` of `base_device_reader.py`, over the
character list of the spec string. -/
def basParseL (cs : List Char) : Except PyErr (String × Int × Int) :=
  match splitColon1 cs with
  | (dp, some ls) =>
      match pyIntDec ls with
      | none =>
          .error (.valueError ("invalid literal for int() with base 10: " ++
            String.mk ls))
      | some len => parseBaseCore cs dp len
  | (dp, none) => parseBaseCore cs dp 1

def basParse (s : String) : Except PyErr (String × Int × Int) := basParseL s.data

/-! ## Device-spec parser of `mcprotocol/device_manager.py` -/

/-- `str.find("H")` on a character list: index of the first `'H'`. -/
def idxOfH : List Char → Option Nat
  | [] => none
  | c :: rest => if c = 'H' then some 0 else (idxOfH rest).map (· + 1)

/-- The greedy match `^([A-Za-z]+)(.+)$`: group 1 is the maximal
alphabetic prefix, backing off one character when the whole string is
alphabetic so that group 2 stays nonempty. -/
def alphaSplitGreedy (dp : List Char) : Option (List Char × List Char) :=
  let p := dp.takeWhile isAsciiAlphaChar
  if p.length = 0 then none
  else if p.length = dp.length then
    if 2 ≤ dp.length then some (dp.take (dp.length - 1), dp.drop (dp.length - 1))
    else none
  else some (p, dp.drop p.length)

/-- The hex-addressed families of `DeviceManager.parse_device_spec`. -/
def hexDevicesDM : List String := ["X", "Y", "B", "W", "SB", "SW", "DX", "DY", "ZR"]

def dmRegexBranch (orig dp : List Char) (len : Int) :
    Except PyErr (String × Int × Int) :=
  match alphaSplitGreedy dp with
  | none => .error (.valueError ("Invalid device specification: " ++ String.mk orig))
  | some (g1, g2) =>
      let dt := String.mk (g1.map Char.toUpper)
      if g2.take 2 = ['0', 'x'] ∨ g2.take 2 = ['0', 'X'] then
        match pyIntHex g2 with
        | some a => .ok (dt, a, len)
        | none =>
            .error (.valueError ("invalid literal for int() with base 16: " ++
              String.mk g2))
      else
        match pyIntDec g2 with
        | some a => .ok (dt, a, len)
        | none =>
            if dt ∈ hexDevicesDM then
              match pyIntHex g2 with
              | some a => .ok (dt, a, len)
              | none =>
                  .error (.valueError ("Invalid address format: " ++ String.mk g2))
            else .error (.valueError ("Invalid address format: " ++ String.mk g2))

def dmParseCore (orig dp : List Char) (len : Int) :
    Except PyErr (String × Int × Int) :=
  match idxOfH (dp.map Char.toUpper) with
  | some hpos =>
      if 0 < hpos then
        let dt := String.mk ((dp.take hpos).map Char.toUpper)
        let addrStr := dp.drop (hpos + 1)
        match pyIntHex addrStr with
        | some a => .ok (dt, a, len)
        | none =>
            .error (.valueError ("invalid literal for int() with base 16: " ++
              String.mk addrStr))
      else dmRegexBranch orig dp len
  | none => dmRegexBranch orig dp len

/-- `DeviceManager.parse_device_spec` of `mcprotocol/device_manager.py`. -/
def dmParseL (cs : List Char) : Except PyErr (String × Int × Int) :=
  match splitColon1 cs with
  | (dp, some ls) =>
      match pyIntDec ls with
      | none =>
          .error (.valueError ("invalid literal for int() with base 10: " ++
            String.mk ls))
      | some len => dmParseCore cs dp len
  | (dp, none) => dmParseCore cs dp 1

def dmParse (s : String) : Except PyErr (String × Int × Int) := dmParseL s.data

/-! ## Device-spec parser of `plc_operations.py` -/

def plcAddrResolve (dt : String) (addrStr : List Char) (hFlag : Bool) (len : Int) :
    Except PyErr (String × Int × Int) :=
  if addrStr.take 2 = ['0', 'x'] ∨ addrStr.take 2 = ['0', 'X'] then
    match pyIntHex addrStr with
    | some a => .ok (dt, a, len)
    | none =>
        .error (.valueError ("invalid literal for int() with base 16: " ++
          String.mk addrStr))
  else if hFlag then
    match pyIntHex addrStr with
    | some a => .ok (dt, a, len)
    | none =>
        .error (.valueError ("invalid literal for int() with base 16: " ++
          String.mk addrStr))
  else
    match pyIntDec addrStr with
    | some a => .ok (dt, a, len)
    | none =>
        match pyIntHex addrStr with
        | some a => .ok (dt, a, len)
        | none => .error (.valueError ("Invalid address format: " ++ String.mk addrStr))

def plcParseCore (orig dp : List Char) (len : Int) :
    Except PyErr (String × Int × Int) :=
  match idxOfH (dp.map Char.toUpper) with
  | some hpos =>
      if 0 < hpos then
        plcAddrResolve (String.mk ((dp.take hpos).map Char.toUpper))
          (dp.drop (hpos + 1)) true len
      else
        match alphaSplitGreedy dp with
        | none => .error (.valueError ("Invalid device specification: " ++ String.mk orig))
        | some (g1, g2) =>
            plcAddrResolve (String.mk (g1.map Char.toUpper)) g2 false len
  | none =>
      match alphaSplitGreedy dp with
      | none => .error (.valueError ("Invalid device specification: " ++ String.mk orig))
      | some (g1, g2) =>
          plcAddrResolve (String.mk (g1.map Char.toUpper)) g2 false len

/-- `PLCOperations.parse_device_spec` of `plc_operations.py`. -/
def plcParseL (cs : List Char) : Except PyErr (String × Int × Int) :=
  match splitColon1 cs with
  | (dp, some ls) =>
      match pyIntDec ls with
      | none =>
          .error (.valueError ("invalid literal for int() with base 10: " ++
            String.mk ls))
      | some len => plcParseCore cs dp len
  | (dp, none) => plcParseCore cs dp 1

def plcParse (s : String) : Except PyErr (String × Int × Int) := plcParseL s.data

/-! ## `check_mcprotocol_error` (`mcprotocol/errors.py`) -/

/-- The textual mapping of the common end-codes (0xC059 is raised as
`UnsupportedCommandError` before this table is consulted). -/
def mcErrorMessage (status : Int) : Option String :=
  if status = 0xC050 then some "PLC内部エラー"
  else if status = 0xC051 then some "PLCモードエラー（RUNモードでない）"
  else if status = 0xC052 then some "デバイスポイント不正"
  else if status = 0xC053 then some "デバイス範囲外"
  else if status = 0xC054 then some "デバイス書き込み不可"
  else if status = 0xC055 then some "プログラム実行中"
  else if status = 0xC056 then some "命令異常"
  else if status = 0xC058 then some "パラメータ異常"
  else if status = 0xC05C then some "要求データ異常"
  else if status = 0xC05F then some "要求内容異常"
  else if status = 0xC060 then some "要求データ長異常"
  else if status = 0xC061 then some "モニタ登録数オーバー"
  else if status = 0xC0B5 then some "CPU処理異常"
  else none

/-- `check_mcprotocol_error(status)`: zero returns normally, 0xC059
raises `UnsupportedCommandError`, a listed code raises
`MCProtocolError(status)` with its message attached, anything else a
bare `MCProtocolError(status)`. -/
def check_mcprotocol_error (status : Int) : Except PyErr Unit :=
  if status = 0 then .ok ()
  else if status = 0xC059 then .error .unsupportedCommandError
  else .error (.mcProtocolError status (mcErrorMessage status))

/-! ## 3E response handling (`mcprotocol/protocol_3e.py`)

The transport is abstracted away: response-processing functions take the
received buffer `recv` (a byte list) directly. -/

/-- `Type3E._get_answerstatus_index`. -/
def statusIdx : CommType → Nat
  | .binary => 9
  | .ascii => 18

/-- `Type3E._get_answerdata_index`. -/
def answerIdx : CommType → Nat
  | .binary => 11
  | .ascii => 22

/-- `Type3E._wordsize`. -/
def wordSize : CommType → Nat
  | .binary => 2
  | .ascii => 4

/-- The status extraction of `Type3E._check_cmdanswer`:
`decode_value(recv[si : si + wordsize], "short", commtype)` (unsigned). -/
def decodeStatus (ct : CommType) (recv : List Nat) : Except PyErr Int :=
  decode_value ((recv.drop (statusIdx ct)).take (wordSize ct)) .short ct false

/-- `Type3E._check_cmdanswer(recv_data)`. -/
def check_cmdanswer (ct : CommType) (recv : List Nat) : Except PyErr Unit :=
  match decodeStatus ct recv with
  | .error e => .error e
  | .ok status => check_mcprotocol_error status

/-- The ASCII branch of `batchread_bitunits`:
`int(recv_data[idx : idx+1].decode())` for each bit. -/
def asciiBitDigits (recv : List Nat) (idx : Nat) : Nat → Except PyErr (List Int)
  | 0 => .ok []
  | n + 1 =>
      match (recv.drop idx).take 1 with
      | [c] =>
          if 48 ≤ c ∧ c ≤ 57 then
            match asciiBitDigits recv (idx + 1) n with
            | .ok rest => .ok (((c - 48 : Nat) : Int) :: rest)
            | .error e => .error e
          else .error (.valueError "invalid literal for int() with base 10")
      | _ => .error (.valueError "invalid literal for int() with base 10")

/-- `Type3E.batchread_bitunits`, response side: check the end-code, then
unpack `readsize` bits — two per byte in binary (even index: bit 4, odd
index: bit 0), one digit character per bit in ASCII. -/
def batchread_bitunits_recv (ct : CommType) (recv : List Nat) (readsize : Nat) :
    Except PyErr (List Int) :=
  match check_cmdanswer ct recv with
  | .error e => .error e
  | .ok _ =>
      match ct with
      | .binary =>
          .ok ((List.range readsize).map (fun i =>
            if i % 2 = 0 then
              (if fromBytesLE ((recv.drop (i / 2 + answerIdx .binary)).take 1) &&&
                  (1 <<< 4) ≠ 0 then (1 : Int) else 0)
            else
              (if fromBytesLE ((recv.drop (i / 2 + answerIdx .binary)).take 1) &&&
                  (1 <<< 0) ≠ 0 then (1 : Int) else 0)))
      | .ascii => asciiBitDigits recv (answerIdx .ascii) readsize

/-! ## Device-code tables (`mcprotocol/constants.py`) -/

/-- The common `(devicename, binary code, radix)` table of
`DeviceConstants.get_binary_devicecode`. -/
def binaryDeviceTable : List (String × Nat × Nat) :=
  [("SM", 0x91, 10), ("SD", 0xA9, 10), ("X", 0x9C, 16), ("Y", 0x9D, 16),
   ("M", 0x90, 10), ("L", 0x92, 10), ("F", 0x93, 10), ("V", 0x94, 10),
   ("B", 0xA0, 16), ("D", 0xA8, 10), ("W", 0xB4, 16), ("TS", 0xC1, 10),
   ("TC", 0xC0, 10), ("TN", 0xC2, 10), ("STS", 0xC7, 10), ("STC", 0xC6, 10),
   ("STN", 0xC8, 10), ("CS", 0xC4, 10), ("CC", 0xC3, 10), ("CN", 0xC5, 10),
   ("SB", 0xA1, 16), ("SW", 0xB5, 16), ("DX", 0xA2, 16), ("DY", 0xA3, 16),
   ("R", 0xAF, 10), ("ZR", 0xB0, 16)]

/-- The iQ-R-only extension of the binary table. -/
def binaryDeviceTableIqr : List (String × Nat × Nat) :=
  [("LTS", 0x51, 10), ("LTC", 0x50, 10), ("LTN", 0x52, 10), ("LSTS", 0x59, 10),
   ("LSTN", 0x5A, 10), ("LCS", 0x55, 10), ("LCC", 0x54, 10), ("LCN", 0x56, 10),
   ("LZ", 0x62, 10), ("RD", 0x2C, 10)]

/-- `DeviceConstants.get_binary_devicecode(plctype, devicename)`. -/
def get_binary_devicecode (plctype devicename : String) :
    Except PyErr (Nat × Nat) :=
  match (binaryDeviceTable ++
      (if plctype = "iQ-R" then binaryDeviceTableIqr else [])).find?
      (fun p => p.1 == devicename) with
  | some p => .ok p.2
  | none => .error (.deviceCodeError plctype devicename)

/-- `devicename.ljust(padding, "*")`. -/
def ljustStar (name : String) (padding : Nat) : String :=
  name ++ String.mk (List.replicate (padding - name.length) '*')

/-- The `(devicename, radix)` part of the ASCII table (the code string is
`devicename.ljust(padding, "*")` uniformly). -/
def asciiDeviceTable : List (String × Nat) :=
  [("SM", 10), ("SD", 10), ("X", 16), ("Y", 16), ("M", 10), ("L", 10),
   ("F", 10), ("V", 10), ("B", 16), ("D", 10), ("W", 16), ("TS", 10),
   ("TC", 10), ("TN", 10), ("CS", 10), ("CC", 10), ("CN", 10), ("SB", 16),
   ("SW", 16), ("DX", 16), ("DY", 16), ("R", 10), ("ZR", 16)]

def asciiDeviceTableIqr : List (String × Nat) :=
  [("LTS", 10), ("LTC", 10), ("LTN", 10), ("LSTS", 10), ("LSTN", 10),
   ("LCS", 10), ("LCC", 10), ("LCN", 10), ("LZ", 10), ("RD", 10)]

/-- `DeviceConstants.get_ascii_devicecode(plctype, devicename)`: the
STS/STC/STN renaming returns early, then the table lookup. -/
def get_ascii_devicecode (plctype devicename : String) :
    Except PyErr (String × Nat) :=
  let padding := if plctype = "iQ-R" then 4 else 2
  if devicename = "STS" then
    .ok (ljustStar (if plctype = "iQ-R" then "STS" else "SS") padding, 10)
  else if devicename = "STC" then
    .ok (ljustStar (if plctype = "iQ-R" then "STC" else "SC") padding, 10)
  else if devicename = "STN" then
    .ok (ljustStar (if plctype = "iQ-R" then "STN" else "SN") padding, 10)
  else
    let m := asciiDeviceTable ++
      (if plctype = "iQ-R" then asciiDeviceTableIqr else [])
    match m.find? (fun p => p.1 == devicename) with
    | some p => .ok (ljustStar devicename padding, p.2)
    | none => .error (.deviceCodeError plctype devicename)

/-- `DeviceConstants.get_devicetype(plctype, devicename)`. -/
def get_devicetype (plctype devicename : String) : Except PyErr String :=
  let bit_devices : List String :=
    ["SM", "X", "Y", "M", "L", "F", "V", "B", "TS", "TC",
     "STS", "STC", "CS", "CC", "SB", "DX", "DY"] ++
    (if plctype = "iQ-R" then ["LTS", "LTC", "LTN", "LSTS", "LCS", "LCC"] else [])
  let word_devices : List String :=
    ["SD", "D", "W", "TN", "STN", "CN", "SW", "R", "ZR", "RD"]
  let dword_devices : List String := ["LSTN", "LCN", "LZ"]
  if plctype = "iQ-R" ∧ devicename ∈ dword_devices then .ok "dword"
  else if devicename ∈ bit_devices then .ok "bit"
  else if devicename ∈ word_devices then .ok "word"
  else .error (.deviceCodeError plctype devicename)

/-! ## `DeviceManager.make_device_data` (`mcprotocol/device_manager.py`) -/

/-- Python `v.to_bytes(n, "little")` (unsigned): raises `OverflowError`
outside `[0, 256^n)`. -/
def pyToBytes (n : Nat) (v : Int) : Except PyErr (List Nat) :=
  if 0 ≤ v ∧ v < (256 : Int) ^ n then .ok (toBytesLE n v.toNat)
  else .error .overflowError

/-- `str(address).rjust(w, "0").upper()` as a character list. -/
def rjustZeroUpper (address : Int) (w : Nat) : List Char :=
  let s := (toString address).data
  (List.replicate (w - s.length) '0' ++ s).map Char.toUpper

/-- `DeviceManager.make_device_data(device, plctype, commtype)`. -/
def make_device_data (device : String) (plctype : String) (commtype : CommType) :
    Except PyErr (List Nat) :=
  match dmParse device with
  | .error e => .error e
  | .ok (device_type, address, _) =>
      match commtype with
      | .binary =>
          match get_binary_devicecode plctype device_type with
          | .error e => .error e
          | .ok (devicecode, _) =>
              if plctype = "iQ-R" then
                match pyToBytes 4 address with
                | .error e => .error e
                | .ok ab =>
                    match pyToBytes 2 (devicecode : Int) with
                    | .error e => .error e
                    | .ok cb => .ok (ab ++ cb)
              else
                match pyToBytes 3 address with
                | .error e => .error e
                | .ok ab =>
                    match pyToBytes 1 (devicecode : Int) with
                    | .error e => .error e
                    | .ok cb => .ok (ab ++ cb)
      | .ascii =>
          match get_ascii_devicecode plctype device_type with
          | .error e => .error e
          | .ok (devicecode, _) =>
              let w := if plctype = "iQ-R" then 8 else 6
              .ok ((devicecode.data ++ rjustZeroUpper address w).map Char.toNat)

/-! ## Reader layer (`device_readers/`, `batch_device_reader.py`)

The PLC connection object is abstracted as an oracle of the three
commands the readers invoke; every invocation is recorded in a call
trace so that round-trip behaviour is observable. -/

/-- `DeviceReadResult` of `base_device_reader.py`. -/
structure DeviceReadResult where
  device : String
  values : List Int
  success : Bool
  error : Option String := none
deriving Repr, DecidableEq

/-- The PLC connection as seen by the readers. -/
structure PlcOracle where
  randomread : List String → List String → Except PyErr (List Int × List Int)
  batchread_wordunits : String → Int → Except PyErr (List Int)
  batchread_bitunits : String → Int → Except PyErr (List Int)

/-- One issued PLC command. -/
inductive PlcCall where
  | randomread (word_devices dword_devices : List String)
  | batchreadWord (headdevice : String) (readsize : Int)
  | batchreadBit (headdevice : String) (readsize : Int)
deriving Repr, DecidableEq

def upperStr (s : String) : String := String.mk (s.data.map Char.toUpper)

/-- `WordDeviceReader.can_read`: `device_type.upper() in {"D","W","R","ZR"}`. -/
def canReadWord (device_type : String) : Bool :=
  (["D", "W", "R", "ZR"] : List String).contains (upperStr device_type)

/-- `BitDeviceReader.can_read`: `device_type.upper() in {"X","Y","M"}`. -/
def canReadBit (device_type : String) : Bool :=
  (["X", "Y", "M"] : List String).contains (upperStr device_type)

def errRes (s msg : String) : DeviceReadResult := ⟨s, [], false, some msg⟩

/-- `WordDeviceReader.read_single`. -/
def wordReadSingle (plc : PlcOracle) (s : String) (a l : Int) :
    DeviceReadResult × List PlcCall :=
  match basParse s with
  | .error e => (errRes s (pyStr e), [])
  | .ok (k, _, _) =>
      if canReadWord k then
        match plc.batchread_wordunits (k ++ toString a) l with
        | .ok vals => (⟨s, vals, true, none⟩, [.batchreadWord (k ++ toString a) l])
        | .error e => (errRes s (pyStr e), [.batchreadWord (k ++ toString a) l])
      else
        (errRes s ("Device type " ++ k ++ " not supported by WordDeviceReader"), [])

/-- A `(device_spec, address, length)` request tuple. -/
abbrev Req := String × Int × Int

/-- The expansion `[f"{kind}{addr+i}" for i in range(length)]`. -/
def expandDevices (k : String) (a l : Int) : List String :=
  (List.range l.toNat).map (fun (i : Nat) => k ++ toString (a + (i : Int)))

/-- Python dict assignment on an association list: an existing key keeps
its position and gets the new value, a new key is appended. -/
def dictInsert (m : List (String × Nat × Int)) (key : String) (v : Nat × Int) :
    List (String × Nat × Int) :=
  if ∃ p ∈ m, p.1 = key then
    m.map (fun p => if p.1 = key then (p.1, v) else p)
  else m ++ [(key, v)]

/-- The first loop of `WordDeviceReader.read_batch`: accumulate error
results, the expanded `word_devices` list, and the
`device_spec -> (start_index, length)` mapping. -/
def wordPrepAux : List Req → List DeviceReadResult → List String →
    List (String × Nat × Int) →
    List DeviceReadResult × List String × List (String × Nat × Int)
  | [], rs, wd, mp => (rs, wd, mp)
  | (s, a, l) :: rest, rs, wd, mp =>
      match basParse s with
      | .error e => wordPrepAux rest (rs ++ [errRes s (pyStr e)]) wd mp
      | .ok (k, _, _) =>
          if canReadWord k then
            wordPrepAux rest rs (wd ++ expandDevices k a l)
              (dictInsert mp s (wd.length, l))
          else
            wordPrepAux rest
              (rs ++ [errRes s ("Device type " ++ k ++ " not supported")]) wd mp

/-- `WordDeviceReader.read_batch`: one `randomread` over the concatenated
expansions, sliced back per request; on failure, fall back to one
`batchread_wordunits` per mapped request. -/
def wordReadBatch (plc : PlcOracle) (reqs : List Req) :
    List DeviceReadResult × List PlcCall :=
  match wordPrepAux reqs [] [] [] with
  | (rs, wd, mp) =>
      if wd = [] then (rs, [])
      else
        match plc.randomread wd [] with
        | .ok (word_values, _) =>
            (rs ++ mp.map (fun p =>
              ⟨p.1, (word_values.drop p.2.1).take p.2.2.toNat, true, none⟩),
             [.randomread wd []])
        | .error _ =>
            let pairs := (reqs.filter (fun r => decide (∃ p ∈ mp, p.1 = r.1))).map
              (fun r => wordReadSingle plc r.1 r.2.1 r.2.2)
            (rs ++ pairs.map Prod.fst,
             .randomread wd [] :: (pairs.map Prod.snd).flatten)

/-- `f"{address:X}"` (uppercase hex, `-` sign for negatives). -/
def intHexUpper (a : Int) : List Char :=
  if a < 0 then '-' :: (hexStr (-a).toNat).map Char.ofNat
  else (hexStr a.toNat).map Char.ofNat

/-- The device-address string of `BitDeviceReader.read_single`: X/Y get
an uppercase hex address, with a `0` inserted when the hex form is at
least 3 characters long and starts with a letter. -/
def bitDeviceAddrStr (k : String) (a : Int) : String :=
  if k ∈ (["X", "Y"] : List String) then
    let hx := intHexUpper a
    if 3 ≤ hx.length ∧ (hx.headD ' ').isAlpha = true then
      k ++ "0" ++ String.mk hx
    else k ++ String.mk hx
  else k ++ toString a

/-- `BitDeviceReader.read_single`. -/
def bitReadSingle (plc : PlcOracle) (s : String) (a l : Int) :
    DeviceReadResult × List PlcCall :=
  match basParse s with
  | .error e => (errRes s (pyStr e), [])
  | .ok (k, _, _) =>
      if canReadBit k then
        let devStr := bitDeviceAddrStr k a
        if l = 1 then
          match plc.batchread_bitunits devStr 1 with
          | .ok value =>
              (⟨s, if value ≠ [] then [value.headD 0] else [0], true, none⟩,
               [.batchreadBit devStr 1])
          | .error e => (errRes s (pyStr e), [.batchreadBit devStr 1])
        else
          match plc.batchread_bitunits devStr l with
          | .ok values =>
              (⟨s, if values ≠ [] then values else List.replicate l.toNat 0,
                 true, none⟩,
               [.batchreadBit devStr l])
          | .error e => (errRes s (pyStr e), [.batchreadBit devStr l])
      else
        (errRes s ("Device type " ++ k ++ " not supported by BitDeviceReader"), [])

/-- `BitDeviceReader.read_batch`: one sequential `read_single` per
request, with per-item error isolation. -/
def bitReadBatch (plc : PlcOracle) : List Req → List DeviceReadResult × List PlcCall
  | [] => ([], [])
  | (s, a, l) :: rest =>
      let head :=
        match basParse s with
        | .error e => (errRes s (pyStr e), ([] : List PlcCall))
        | .ok (k, _, _) =>
            if canReadBit k then bitReadSingle plc s a l
            else (errRes s ("Device type " ++ k ++ " not supported"), [])
      match bitReadBatch plc rest with
      | (rs, cs) => (head.1 :: rs, head.2 ++ cs)

/-! ## Batch dispatcher (`batch_device_reader.py`) -/

/-- The registry key a parsed kind is routed to: the word reader is
registered first, then the bit reader; an unmatched kind keeps its own
name as key. -/
def keyOfOk (k : String) : String :=
  if canReadWord k then "word" else if canReadBit k then "bit" else k

def dictAppendReq (gs : List (String × List Req)) (key : String) (t : Req) :
    List (String × List Req) :=
  if ∃ p ∈ gs, p.1 = key then
    gs.map (fun p => if p.1 = key then (p.1, p.2 ++ [t]) else p)
  else gs ++ [(key, [t])]

def dictSetReq (gs : List (String × List Req)) (key : String) (v : List Req) :
    List (String × List Req) :=
  if ∃ p ∈ gs, p.1 = key then
    gs.map (fun p => if p.1 = key then (p.1, v) else p)
  else gs ++ [(key, v)]

/-- One iteration of `BatchDeviceReader._group_devices_by_reader`. -/
def groupStep (gs : List (String × List Req)) (s : String) :
    List (String × List Req) :=
  match basParse s with
  | .ok (k, a, l) => dictAppendReq gs (keyOfOk k) (s, a, l)
  | .error _ => dictSetReq gs ("error_" ++ s) [(s, 0, 1)]

/-- `BatchDeviceReader._group_devices_by_reader`. -/
def groupDevices (specs : List String) : List (String × List Req) :=
  specs.foldl groupStep []

def unsupportedRes (s key : String) : DeviceReadResult :=
  ⟨s, [], false, some ("Unsupported device type: " ++ key)⟩

/-- One iteration of the group loop of
`BatchDeviceReader.batch_read_devices`: re-parse the first request to
pick the reader; a `ValueError` (parse failure or no reader) turns the
whole group into `Unsupported device type` outcomes without touching the
PLC. -/
def runGroup (plc : PlcOracle) (key : String) (reqs : List Req) :
    List DeviceReadResult × List PlcCall :=
  match reqs with
  | [] => ([], [])
  | (s0, _, _) :: _ =>
      match basParse s0 with
      | .error _ => (reqs.map (fun t => unsupportedRes t.1 key), [])
      | .ok (k0, _, _) =>
          if canReadWord k0 then wordReadBatch plc reqs
          else if canReadBit k0 then bitReadBatch plc reqs
          else (reqs.map (fun t => unsupportedRes t.1 key), [])

/-- The dict `result_map` lookup of `_reorder_results`: the result of the
last entry with the given device string (later entries overwrite). -/
def lastResultFor (results : List DeviceReadResult) (device : String) :
    Option DeviceReadResult :=
  results.foldl (fun acc r => if r.device = device then some r else acc) none

/-- `BatchDeviceReader._reorder_results`. -/
def reorderResults (results : List DeviceReadResult) (original : List String) :
    List DeviceReadResult :=
  original.map (fun s =>
    (lastResultFor results s).getD ⟨s, [], false, some "No result found"⟩)

/-- `BatchDeviceReader.batch_read_devices`, with the issued call trace. -/
def batch_read_devices (plc : PlcOracle) (specs : List String) :
    List DeviceReadResult × List PlcCall :=
  if specs = [] then ([], [])
  else
    let outs := (groupDevices specs).map (fun g => runGroup plc g.1 g.2)
    (reorderResults ((outs.map Prod.fst).flatten) specs, (outs.map Prod.snd).flatten)

/-! ## `PLCOperations.batch_read_devices` (`plc_operations.py`)

The connect step is abstracted as an `Except PyErr Unit`; the source
catches any exception raised inside the `try` block (the connect, in
particular) and maps the whole batch to uniform
`PLC connection error: ...` outcomes. -/

def plcops_batch_read_devices (connect : Except PyErr Unit) (plc : PlcOracle)
    (specs : List String) : List DeviceReadResult :=
  if specs = [] then []
  else
    match connect with
    | .ok _ => (batch_read_devices plc specs).1
    | .error e =>
        specs.map (fun s =>
          ⟨s, [], false, some ("PLC connection error: " ++ pyStr e)⟩)

/-! ## C1: batch ordering and completeness -/

theorem lastResultFor_aux (d : String) (r : DeviceReadResult) :
    ∀ (rs : List DeviceReadResult) (acc : Option DeviceReadResult),
      (∀ r', acc = some r' → r'.device = d) →
      rs.foldl (fun acc r => if r.device = d then some r else acc) acc = some r →
      r.device = d
  | [], _, hacc, h => hacc r h
  | x :: xs, acc, hacc, h => by
      simp only [List.foldl_cons] at h
      refine lastResultFor_aux d r xs _ ?_ h
      intro r' hr'
      by_cases hx : x.device = d
      · rw [if_pos hx] at hr'
        injection hr' with h2
        rw [← h2]
        exact hx
      · rw [if_neg hx] at hr'
        exact hacc r' hr'

theorem lastResultFor_device (rs : List DeviceReadResult) (d : String)
    (r : DeviceReadResult) (h : lastResultFor rs d = some r) : r.device = d :=
  lastResultFor_aux d r rs none (fun r' h' => by cases h') h

theorem reorderResults_devices (results : List DeviceReadResult)
    (original : List String) :
    (reorderResults results original).map (fun r => r.device) = original := by
  unfold reorderResults
  rw [List.map_map]
  have : ∀ s ∈ original,
      ((fun r => r.device) ∘ fun s =>
        (lastResultFor results s).getD ⟨s, [], false, some "No result found"⟩) s =
        id s := by
    intro s _
    simp only [Function.comp_apply, id_eq]
    cases h : lastResultFor results s with
    | none => rfl
    | some r =>
        simp only [Option.getD_some]
        exact lastResultFor_device results s r h
  rw [List.map_congr_left this, List.map_id]

/-- C1: `BatchDeviceReader.batch_read_devices` returns one outcome per
input, in input order: the device fields of the results are exactly the
input list, and in particular the lengths agree. -/
theorem batch_read_devices_order (plc : PlcOracle) (specs : List String) :
    ((batch_read_devices plc specs).1.map (fun r => r.device)) = specs ∧
    (batch_read_devices plc specs).1.length = specs.length := by
  constructor
  · unfold batch_read_devices
    by_cases h : specs = []
    · rw [if_pos h, h]
      rfl
    · rw [if_neg h]
      exact reorderResults_devices _ _
  · have h1 : ((batch_read_devices plc specs).1.map (fun r => r.device)).length =
        specs.length := by
      unfold batch_read_devices
      by_cases h : specs = []
      · rw [if_pos h, h]
        rfl
      · rw [if_neg h]
        rw [reorderResults_devices]
    rw [List.length_map] at h1
    exact h1

/-! ## C2: connect-failure uniformity -/

/-- An oracle that is never reached (used by witnesses). -/
def nullOracle : PlcOracle where
  randomread := fun _ _ => .error (.valueError "no plc")
  batchread_wordunits := fun _ _ => .error (.valueError "no plc")
  batchread_bitunits := fun _ _ => .error (.valueError "no plc")

/-- C2: if the connect step of `PLCOperations.batch_read_devices` fails
with exception `e` on a non-empty input list, every outcome is the
failure outcome with error `"PLC connection error: " ++ str(e)`, one per
input, none missing. -/
theorem plcops_connect_failure_uniform (plc : PlcOracle) (specs : List String)
    (e : PyErr) (hne : specs ≠ []) :
    plcops_batch_read_devices (.error e) plc specs =
      specs.map (fun s =>
        ⟨s, [], false, some ("PLC connection error: " ++ pyStr e)⟩) ∧
    (plcops_batch_read_devices (.error e) plc specs).length = specs.length ∧
    ∀ r ∈ plcops_batch_read_devices (.error e) plc specs,
      r.success = false ∧ r.error = some ("PLC connection error: " ++ pyStr e) := by
  unfold plcops_batch_read_devices
  rw [if_neg hne]
  refine ⟨rfl, by rw [List.length_map], ?_⟩
  intro r hr
  simp only [List.mem_map] at hr
  obtain ⟨s, -, rfl⟩ := hr
  exact ⟨rfl, rfl⟩

/-- Witness for C2 at `specs = ["D0", "M1"]`, `e = ValueError "timed out"`. -/
theorem plcops_connect_failure_uniform_witness :
    (["D0", "M1"] : List String) ≠ [] ∧
    plcops_batch_read_devices (.error (.valueError "timed out")) nullOracle
        ["D0", "M1"] =
      (["D0", "M1"] : List String).map (fun s =>
        ⟨s, [], false, some ("PLC connection error: " ++
          pyStr (.valueError "timed out"))⟩) :=
  ⟨by decide,
   (plcops_connect_failure_uniform nullOracle ["D0", "M1"]
      (.valueError "timed out") (by decide)).1⟩

/-! ## C9: device-data encoding of D1000 -/

theorem find?_append_left {α : Type} (p : α → Bool) (l₁ l₂ : List α) (x : α)
    (h : l₁.find? p = some x) : (l₁ ++ l₂).find? p = some x := by
  induction l₁ with
  | nil => simp [List.find?] at h
  | cons a as ih =>
      simp only [List.cons_append, List.find?] at h ⊢
      cases hpa : p a with
      | true =>
          rw [hpa] at h
          simpa using h
      | false =>
          rw [hpa] at h
          exact ih h

theorem get_binary_devicecode_D (pt : String) :
    get_binary_devicecode pt "D" = .ok (0xA8, 10) := by
  unfold get_binary_devicecode
  rw [find?_append_left (fun p => p.1 == "D") binaryDeviceTable
    (if pt = "iQ-R" then binaryDeviceTableIqr else [])
    ("D", 0xA8, 10) (by rfl)]

/-- C9: encoding `D1000` as binary device-data gives the 4-byte
little-endian address followed by the 2-byte little-endian code `0xA8`
on iQ-R (6 bytes `E8 03 00 00 A8 00`), and the 3-byte address followed
by the 1-byte code on every other series. -/
theorem make_device_data_D1000 :
    make_device_data "D1000" "iQ-R" .binary =
      .ok [0xE8, 0x03, 0x00, 0x00, 0xA8, 0x00] ∧
    ∀ pt : String, pt ≠ "iQ-R" →
      make_device_data "D1000" pt .binary = .ok [0xE8, 0x03, 0x00, 0xA8] := by
  constructor
  · rfl
  · intro pt hpt
    unfold make_device_data
    rw [show dmParse "D1000" = .ok ("D", (1000 : Int), 1) from rfl]
    simp only [get_binary_devicecode_D pt]
    rw [if_neg hpt]
    rfl

/-- Witness for C9's non-iQ-R half at `pt = "Q"`. -/
theorem make_device_data_D1000_witness :
    ("Q" : String) ≠ "iQ-R" ∧
    make_device_data "D1000" "Q" .binary = .ok [0xE8, 0x03, 0x00, 0xA8] :=
  ⟨by decide, make_device_data_D1000.2 "Q" (by decide)⟩

/-! ## C4, C5: radix rules and parse edges -/

/-- C4 counterexample: all three parsers interpret `"W10"` and `"SB10"`
in decimal — `(W, 10, 1)`, not `(W, 16, 1)` as claimed.  In
`DeviceManager` and `PLCOperations` the decimal interpretation is tried
first for every kind; in the base reader only `X`, `Y` and `B` addresses
are hexadecimal, and `W` and `SB` are not among them. -/
theorem parse_w10_counterexample :
    dmParse "W10" = .ok ("W", 10, 1) ∧
    basParse "W10" = .ok ("W", 10, 1) ∧
    plcParse "W10" = .ok ("W", 10, 1) ∧
    dmParse "SB10" = .ok ("SB", 10, 1) ∧
    basParse "SB10" = .ok ("SB", 10, 1) ∧
    plcParse "SB10" = .ok ("SB", 10, 1) ∧
    dmParse "W10" ≠ .ok ("W", 16, 1) ∧
    dmParse "SB10" ≠ .ok ("SB", 16, 1) := by
  decide

/-- C5 counterexample: no parser maps `"ZRFF"` to `(ZR, 0xFF, 1)`.  The
greedy kind/address split of `DeviceManager.parse_device_spec` yields
`("ZRF", "F")` and `"ZRF"` is not hex-addressed, so it raises; the base
reader has no `ZR` entry and raises; `PLCOperations.parse_device_spec`
returns `("ZRF", 15, 1)` through its unconditional hex fallback. -/
theorem parse_zrff_counterexample :
    dmParse "ZRFF" = .error (.valueError "Invalid address format: F") ∧
    basParse "ZRFF" = .error (.valueError ("Invalid device specification: " ++
      "ZRFF - 対応デバイス: X,Y,B,M,D,T,C,Z,H,L,F,V,R,W,S,U,N,SM,SD等")) ∧
    plcParse "ZRFF" = .ok ("ZRF", 15, 1) ∧
    dmParse "ZRFF" ≠ .ok ("ZR", 0xFF, 1) ∧
    basParse "ZRFF" ≠ .ok ("ZR", 0xFF, 1) ∧
    plcParse "ZRFF" ≠ .ok ("ZR", 0xFF, 1) := by
  decide

/-- C5 amended: `"ZRFF"` is a parse error in `DeviceManager` (greedy
kind match gives kind `"ZRF"`, address `"F"`, and `"ZRF"` is not
hex-addressed); the working spelling `"ZR0FF"` parses to
`(ZR, 0xFF, 1)`; `"DFF"` is a parse error in `DeviceManager` (kind
parsed as `"DF"`) and in the base reader (address `"FF"` is not a
decimal numeral for `D`), while `PLCOperations.parse_device_spec`
instead returns `("DF", 15, 1)` via its unconditional hex fallback. -/
theorem parse_zrff_dff_amended :
    dmParse "ZRFF" = .error (.valueError "Invalid address format: F") ∧
    dmParse "ZR0FF" = .ok ("ZR", 0xFF, 1) ∧
    dmParse "DFF" = .error (.valueError "Invalid address format: F") ∧
    basParse "DFF" =
      .error (.valueError "invalid literal for int() with base 10: FF") ∧
    plcParse "DFF" = .ok ("DF", 15, 1) := by
  decide

/-! ## C4 support: general shape lemmas for `DeviceManager.parse_device_spec` -/

theorem ne_of_pred_true_false {α : Type} (p : α → Bool) (a b : α)
    (ha : p a = true) (hb : p b = false) : a ≠ b := by
  intro h
  rw [h, hb] at ha
  exact Bool.noConfusion ha

theorem digit_not_alpha (c : Char) (h : isDigitChar c = true) :
    isAsciiAlphaChar c = false := by
  simp only [isDigitChar, Bool.and_eq_true, decide_eq_true_eq] at h
  simp only [isAsciiAlphaChar, Bool.or_eq_false_iff, Bool.and_eq_false_iff,
    decide_eq_false_iff_not, not_le]
  omega

theorem takeWhile_append_of_all {α : Type} (p : α → Bool) (l₁ l₂ : List α)
    (h : ∀ c ∈ l₁, p c = true) :
    (l₁ ++ l₂).takeWhile p = l₁ ++ l₂.takeWhile p := by
  induction l₁ with
  | nil => simp
  | cons a as ih =>
      simp only [List.cons_append, List.takeWhile_cons]
      rw [h a (List.mem_cons_self _ _)]
      simp [ih (fun c hc => h c (List.mem_cons_of_mem a hc))]

theorem idxOfH_none (cs : List Char) (h : ∀ c ∈ cs, c ≠ 'H') :
    idxOfH cs = none := by
  induction cs with
  | nil => rfl
  | cons c rest ih =>
      simp only [idxOfH, if_neg (h c (List.mem_cons_self _ _))]
      rw [ih (fun c' hc' => h c' (List.mem_cons_of_mem c hc'))]
      rfl

theorem idxOfH_of_tail (cs : List Char) (h : ∀ c ∈ cs.drop 1, c ≠ 'H') :
    idxOfH cs = none ∨ idxOfH cs = some 0 := by
  cases cs with
  | nil => exact Or.inl rfl
  | cons c rest =>
      by_cases hc : c = 'H'
      · right
        simp [idxOfH, hc]
      · left
        simp only [idxOfH, if_neg hc]
        rw [idxOfH_none rest (by simpa using h)]
        rfl

theorem mem_drop_one_append_upper (kcs dcs : List Char) (c : Char)
    (hc : c ∈ ((kcs ++ dcs).map Char.toUpper).drop 1) :
    ∃ c₀ ∈ (kcs ++ dcs).drop 1, c = Char.toUpper c₀ := by
  rw [← List.map_drop] at hc
  obtain ⟨c₀, hc₀, rfl⟩ := List.mem_map.mp hc
  exact ⟨c₀, hc₀, rfl⟩

/-- The common prefix of the DeviceManager parse on a kind+address input
with no colon and no `H` beyond position 0: it reduces to the regex
branch on the whole input. -/
theorem dmParseL_to_regex (kcs dcs : List Char)
    (hka : ∀ c ∈ kcs, isAsciiAlphaChar c = true)
    (hda : ∀ c ∈ dcs, isHexDigitChar c = true)
    (hH : ∀ c ∈ (kcs ++ dcs).drop 1, Char.toUpper c ≠ 'H') :
    dmParseL (kcs ++ dcs) = dmRegexBranch (kcs ++ dcs) (kcs ++ dcs) 1 := by
  have hcolon : ¬ (':' ∈ kcs ++ dcs) := by
    intro hmem
    rcases List.mem_append.mp hmem with h | h
    · exact absurd (hka ':' h) (by decide)
    · exact absurd (hda ':' h) (by decide)
  have hsplit : splitColon1 (kcs ++ dcs) = (kcs ++ dcs, none) := by
    unfold splitColon1
    rw [if_neg hcolon]
  unfold dmParseL
  rw [hsplit]
  show dmParseCore (kcs ++ dcs) (kcs ++ dcs) 1 =
    dmRegexBranch (kcs ++ dcs) (kcs ++ dcs) 1
  unfold dmParseCore
  have hidx : idxOfH ((kcs ++ dcs).map Char.toUpper) = none ∨
      idxOfH ((kcs ++ dcs).map Char.toUpper) = some 0 := by
    refine idxOfH_of_tail _ ?_
    intro c hc
    obtain ⟨c₀, hc₀, rfl⟩ := mem_drop_one_append_upper kcs dcs c hc
    exact hH c₀ hc₀
  rcases hidx with hidx | hidx
  · rw [hidx]
  · rw [hidx]
    simp

theorem alphaSplitGreedy_kind_addr (kcs dcs : List Char)
    (hk : kcs ≠ []) (hka : ∀ c ∈ kcs, isAsciiAlphaChar c = true)
    (hd : dcs ≠ []) (hd0 : isDigitChar (dcs.headD '0') = true) :
    alphaSplitGreedy (kcs ++ dcs) = some (kcs, dcs) := by
  have hp : (kcs ++ dcs).takeWhile isAsciiAlphaChar = kcs := by
    rw [takeWhile_append_of_all _ _ _ hka]
    cases dcs with
    | nil => exact absurd rfl hd
    | cons d rest =>
        simp only [List.headD_cons] at hd0
        rw [List.takeWhile_cons, digit_not_alpha d hd0]
        simp
  unfold alphaSplitGreedy
  rw [hp]
  have hlk : kcs.length ≠ 0 := by
    intro h
    exact hk (List.length_eq_zero.mp h)
  have hne : kcs.length ≠ (kcs ++ dcs).length := by
    rw [List.length_append]
    have : dcs.length ≠ 0 := by
      intro h
      exact hd (List.length_eq_zero.mp h)
    omega
  rw [if_neg hlk, if_neg hne, List.drop_left]

theorem take_two_ne_0x (dcs : List Char) (hda : ∀ c ∈ dcs, isHexDigitChar c = true) :
    ¬ (dcs.take 2 = ['0', 'x'] ∨ dcs.take 2 = ['0', 'X']) := by
  rintro (h | h)
  · have : 'x' ∈ dcs.take 2 := by
      rw [h]
      simp
    exact absurd (hda 'x' (List.mem_of_mem_take this)) (by decide)
  · have : 'X' ∈ dcs.take 2 := by
      rw [h]
      simp
    exact absurd (hda 'X' (List.mem_of_mem_take this)) (by decide)

theorem pyIntDec_of_digits (dcs : List Char) (hd : dcs ≠ [])
    (hda : ∀ c ∈ dcs, isDigitChar c = true) :
    pyIntDec dcs = some ((decVal dcs : Nat) : Int) := by
  cases dcs with
  | nil => exact absurd rfl hd
  | cons c rest =>
      have hc : isDigitChar c = true := hda c (List.mem_cons_self _ _)
      simp only [pyIntDec]
      rw [if_neg (ne_of_pred_true_false isDigitChar c '-' hc (by decide)),
        if_neg (ne_of_pred_true_false isDigitChar c '+' hc (by decide))]
      unfold pyIntDecCore
      rw [if_pos ⟨List.cons_ne_nil c rest, List.all_eq_true.mpr hda⟩]
      rfl

theorem pyIntDec_of_not_all_digits (dcs : List Char)
    (hd0 : isDigitChar (dcs.headD '0') = true)
    (hnd : ¬ ∀ c ∈ dcs, isDigitChar c = true) :
    pyIntDec dcs = none := by
  cases dcs with
  | nil => exact absurd (by intro c hc; cases hc) hnd
  | cons c rest =>
      simp only [List.headD_cons] at hd0
      simp only [pyIntDec]
      rw [if_neg (ne_of_pred_true_false isDigitChar c '-' hd0 (by decide)),
        if_neg (ne_of_pred_true_false isDigitChar c '+' hd0 (by decide))]
      unfold pyIntDecCore
      rw [if_neg]
      · rfl
      · rintro ⟨-, hall⟩
        exact hnd (List.all_eq_true.mp hall)

theorem pyIntHex_of_hex_digits (dcs : List Char) (hd : dcs ≠ [])
    (hd0 : isDigitChar (dcs.headD '0') = true)
    (hda : ∀ c ∈ dcs, isHexDigitChar c = true) :
    pyIntHex dcs = some ((hexVal dcs : Nat) : Int) := by
  cases dcs with
  | nil => exact absurd rfl hd
  | cons c rest =>
      simp only [List.headD_cons] at hd0
      simp only [pyIntHex]
      rw [if_neg (ne_of_pred_true_false isDigitChar c '-' hd0 (by decide)),
        if_neg (ne_of_pred_true_false isDigitChar c '+' hd0 (by decide))]
      unfold pyIntHexCore
      rw [if_neg (take_two_ne_0x (c :: rest) hda)]
      rw [if_pos ⟨List.cons_ne_nil c rest, List.all_eq_true.mpr hda⟩]
      rfl

theorem digit_isHex (c : Char) (h : isDigitChar c = true) :
    isHexDigitChar c = true := by
  simp only [isDigitChar, Bool.and_eq_true, decide_eq_true_eq] at h
  simp only [isHexDigitChar, hexCodeVal]
  rw [if_pos ⟨h.1, h.2⟩]
  rfl

theorem dm_parse_decimal_first (kcs dcs : List Char)
    (hk : kcs ≠ []) (hka : ∀ c ∈ kcs, isAsciiAlphaChar c = true)
    (hd : dcs ≠ []) (hda : ∀ c ∈ dcs, isDigitChar c = true)
    (hH : ∀ c ∈ (kcs ++ dcs).drop 1, Char.toUpper c ≠ 'H') :
    dmParseL (kcs ++ dcs) =
      .ok (String.mk (kcs.map Char.toUpper), ((decVal dcs : Nat) : Int), 1) := by
  have hhex : ∀ c ∈ dcs, isHexDigitChar c = true :=
    fun c hc => digit_isHex c (hda c hc)
  have hd0 : isDigitChar (dcs.headD '0') = true := by
    cases dcs with
    | nil => exact absurd rfl hd
    | cons d rest => exact hda d (List.mem_cons_self _ _)
  rw [dmParseL_to_regex kcs dcs hka hhex hH]
  have hsplitG := alphaSplitGreedy_kind_addr kcs dcs hk hka hd hd0
  simp only [dmRegexBranch, hsplitG, if_neg (take_two_ne_0x dcs hhex),
    pyIntDec_of_digits dcs hd hda]

theorem dm_parse_hex_fallback (kcs dcs : List Char)
    (hk : kcs ≠ []) (hka : ∀ c ∈ kcs, isAsciiAlphaChar c = true)
    (hd : dcs ≠ []) (hda : ∀ c ∈ dcs, isHexDigitChar c = true)
    (hd0 : isDigitChar (dcs.headD '0') = true)
    (hnd : ¬ ∀ c ∈ dcs, isDigitChar c = true)
    (hH : ∀ c ∈ (kcs ++ dcs).drop 1, Char.toUpper c ≠ 'H') :
    dmParseL (kcs ++ dcs) =
      (if String.mk (kcs.map Char.toUpper) ∈ hexDevicesDM then
        .ok (String.mk (kcs.map Char.toUpper), ((hexVal dcs : Nat) : Int), 1)
      else
        .error (.valueError ("Invalid address format: " ++ String.mk dcs))) := by
  rw [dmParseL_to_regex kcs dcs hka hda hH]
  have hsplitG := alphaSplitGreedy_kind_addr kcs dcs hk hka hd hd0
  simp only [dmRegexBranch, hsplitG, if_neg (take_two_ne_0x dcs hda),
    pyIntDec_of_not_all_digits dcs hd0 hnd,
    pyIntHex_of_hex_digits dcs hd hd0 hda]

theorem pyIntHex_of_hex_head (dcs : List Char) (hd : dcs ≠ [])
    (hda : ∀ c ∈ dcs, isHexDigitChar c = true) :
    pyIntHex dcs = some ((hexVal dcs : Nat) : Int) := by
  cases dcs with
  | nil => exact absurd rfl hd
  | cons c rest =>
      have hc : isHexDigitChar c = true := hda c (List.mem_cons_self _ _)
      simp only [pyIntHex]
      rw [if_neg (ne_of_pred_true_false isHexDigitChar c '-' hc (by decide)),
        if_neg (ne_of_pred_true_false isHexDigitChar c '+' hc (by decide))]
      unfold pyIntHexCore
      rw [if_neg (take_two_ne_0x (c :: rest) hda)]
      rw [if_pos ⟨List.cons_ne_nil c rest, List.all_eq_true.mpr hda⟩]
      rfl

theorem pyIntDec_none_of_hex (dcs : List Char) (hd : dcs ≠ [])
    (hda : ∀ c ∈ dcs, isHexDigitChar c = true)
    (hnd : ¬ ∀ c ∈ dcs, isDigitChar c = true) :
    pyIntDec dcs = none := by
  cases dcs with
  | nil => exact absurd (by intro c hc; cases hc) hnd
  | cons c rest =>
      have hc : isHexDigitChar c = true := hda c (List.mem_cons_self _ _)
      simp only [pyIntDec]
      rw [if_neg (ne_of_pred_true_false isHexDigitChar c '-' hc (by decide)),
        if_neg (ne_of_pred_true_false isHexDigitChar c '+' hc (by decide))]
      unfold pyIntDecCore
      rw [if_neg]
      · rfl
      · rintro ⟨-, hall⟩
        exact hnd (List.all_eq_true.mp hall)

theorem findKnownDevice_addr (l : List String) (dp : List Char) (kd : String)
    (addr : List Char) (h : findKnownDevice l dp = some (kd, addr)) :
    addr ≠ [] ∧ ∀ c ∈ addr, isHexDigitChar c = true := by
  induction l with
  | nil => cases h
  | cons x xs ih =>
      simp only [findKnownDevice] at h
      split at h
      · rename_i hcond
        injection h with h2
        have ha : dp.drop x.length = addr := congrArg (fun p => p.2) h2
        rw [← ha]
        exact ⟨hcond.2.1, List.all_eq_true.mp hcond.2.2⟩
      · exact ih h

theorem basParseL_no_colon (dp : List Char) (hc : ¬ ':' ∈ dp) :
    basParseL dp = parseBaseCore dp dp 1 := by
  have hsplit : splitColon1 dp = (dp, none) := by
    unfold splitColon1
    rw [if_neg hc]
  unfold basParseL
  rw [hsplit]

/-- The radix rule of the base reader's parser: a kind in `{X, Y, B}`
has its address read in hexadecimal directly; every other matched kind
reads it in decimal and fails when the address is not a decimal
numeral. -/
theorem bas_parse_radix (dp : List Char) (kd : String) (addr : List Char)
    (hc : ¬ ':' ∈ dp)
    (hf : findKnownDevice knownDevices dp = some (kd, addr)) :
    basParseL dp =
      (if kd ∈ (["X", "Y", "B"] : List String) then
        .ok (kd, ((hexVal addr : Nat) : Int), 1)
      else if addr.all isDigitChar = true then
        .ok (kd, ((decVal addr : Nat) : Int), 1)
      else
        .error (.valueError ("invalid literal for int() with base 10: " ++
          String.mk addr))) := by
  obtain ⟨hne, hhex⟩ := findKnownDevice_addr knownDevices dp kd addr hf
  rw [basParseL_no_colon dp hc]
  simp only [parseBaseCore, hf]
  by_cases hxy : kd ∈ (["X", "Y", "B"] : List String)
  · rw [if_pos hxy, if_pos hxy, pyIntHex_of_hex_head addr hne hhex]
  · rw [if_neg hxy, if_neg hxy]
    by_cases hdig : addr.all isDigitChar = true
    · rw [if_pos hdig, pyIntDec_of_digits addr hne (List.all_eq_true.mp hdig)]
    · rw [if_neg hdig,
        pyIntDec_none_of_hex addr hne hhex
          (fun hall => hdig (List.all_eq_true.mpr hall))]

/-- The common prefix of the PLCOperations parse on a kind+address input
with no colon and no `H` beyond position 0: it reduces to address
resolution with the `H` flag off. -/
theorem plcParseL_to_resolve (kcs dcs : List Char)
    (hk : kcs ≠ []) (hka : ∀ c ∈ kcs, isAsciiAlphaChar c = true)
    (hd : dcs ≠ []) (hda : ∀ c ∈ dcs, isHexDigitChar c = true)
    (hd0 : isDigitChar (dcs.headD '0') = true)
    (hH : ∀ c ∈ (kcs ++ dcs).drop 1, Char.toUpper c ≠ 'H') :
    plcParseL (kcs ++ dcs) =
      plcAddrResolve (String.mk (kcs.map Char.toUpper)) dcs false 1 := by
  have hcolon : ¬ (':' ∈ kcs ++ dcs) := by
    intro hmem
    rcases List.mem_append.mp hmem with h | h
    · exact absurd (hka ':' h) (by decide)
    · exact absurd (hda ':' h) (by decide)
  have hsplit : splitColon1 (kcs ++ dcs) = (kcs ++ dcs, none) := by
    unfold splitColon1
    rw [if_neg hcolon]
  unfold plcParseL
  rw [hsplit]
  show plcParseCore (kcs ++ dcs) (kcs ++ dcs) 1 = _
  unfold plcParseCore
  have hidx : idxOfH ((kcs ++ dcs).map Char.toUpper) = none ∨
      idxOfH ((kcs ++ dcs).map Char.toUpper) = some 0 := by
    refine idxOfH_of_tail _ ?_
    intro c hc
    obtain ⟨c₀, hc₀, rfl⟩ := mem_drop_one_append_upper kcs dcs c hc
    exact hH c₀ hc₀
  have hsplitG := alphaSplitGreedy_kind_addr kcs dcs hk hka hd hd0
  rcases hidx with hidx | hidx
  · rw [hidx]
    simp only [hsplitG]
  · rw [hidx]
    simp [hsplitG]

/-- The radix rule of `PLCOperations.parse_device_spec`: decimal is
tried first for every kind; when the address is not a decimal numeral
the hexadecimal interpretation applies unconditionally. -/
theorem plc_parse_radix (kcs dcs : List Char)
    (hk : kcs ≠ []) (hka : ∀ c ∈ kcs, isAsciiAlphaChar c = true)
    (hd : dcs ≠ []) (hda : ∀ c ∈ dcs, isHexDigitChar c = true)
    (hd0 : isDigitChar (dcs.headD '0') = true)
    (hH : ∀ c ∈ (kcs ++ dcs).drop 1, Char.toUpper c ≠ 'H') :
    plcParseL (kcs ++ dcs) =
      (if dcs.all isDigitChar = true then
        .ok (String.mk (kcs.map Char.toUpper), ((decVal dcs : Nat) : Int), 1)
      else
        .ok (String.mk (kcs.map Char.toUpper), ((hexVal dcs : Nat) : Int), 1)) := by
  rw [plcParseL_to_resolve kcs dcs hk hka hd hda hd0 hH]
  unfold plcAddrResolve
  rw [if_neg (take_two_ne_0x dcs hda), if_neg Bool.false_ne_true]
  by_cases hdig : dcs.all isDigitChar = true
  · rw [if_pos hdig, pyIntDec_of_digits dcs hd (List.all_eq_true.mp hdig)]
  · rw [if_neg hdig,
      pyIntDec_none_of_hex dcs hd hda (fun hall => hdig (List.all_eq_true.mpr hall)),
      pyIntHex_of_hex_head dcs hd hda]

/-- C4 (amended): the radix rule is parser-specific.
`DeviceManager.parse_device_spec` tries the decimal interpretation first
for every kind and falls back to hexadecimal only when the decimal parse
fails, and only for kinds in `{X, Y, B, W, SB, SW, DX, DY, ZR}` (other
kinds then fail).  The base reader `DeviceReader.parse_device_spec`
interprets the matched address directly in hexadecimal exactly when the
matched kind is `X`, `Y` or `B`, and in decimal for every other kind,
failing when the address is not a decimal numeral.
`PLCOperations.parse_device_spec` tries decimal first for every kind and
falls back to hexadecimal unconditionally.  Hence `"W10"` parses as
`(W, 10, 1)` in all three parsers; `"X10"` is `(X, 16, 1)` in the base
reader but `(X, 10, 1)` in the other two; `"W1F"` is `(W, 0x1F, 1)` in
DeviceManager and PLCOperations but an error in the base reader; and
`"D1F"` is `(D, 0x1F, 1)` in PLCOperations and an error in the other
two. -/
theorem parse_radix_amended :
    (∀ kcs dcs : List Char, kcs ≠ [] → (∀ c ∈ kcs, isAsciiAlphaChar c = true) →
      dcs ≠ [] → (∀ c ∈ dcs, isDigitChar c = true) →
      (∀ c ∈ (kcs ++ dcs).drop 1, Char.toUpper c ≠ 'H') →
      dmParseL (kcs ++ dcs) =
        .ok (String.mk (kcs.map Char.toUpper), ((decVal dcs : Nat) : Int), 1)) ∧
    (∀ kcs dcs : List Char, kcs ≠ [] → (∀ c ∈ kcs, isAsciiAlphaChar c = true) →
      dcs ≠ [] → (∀ c ∈ dcs, isHexDigitChar c = true) →
      isDigitChar (dcs.headD '0') = true →
      ¬ (∀ c ∈ dcs, isDigitChar c = true) →
      (∀ c ∈ (kcs ++ dcs).drop 1, Char.toUpper c ≠ 'H') →
      dmParseL (kcs ++ dcs) =
        (if String.mk (kcs.map Char.toUpper) ∈ hexDevicesDM then
          .ok (String.mk (kcs.map Char.toUpper), ((hexVal dcs : Nat) : Int), 1)
        else
          .error (.valueError ("Invalid address format: " ++ String.mk dcs)))) ∧
    (∀ (dp : List Char) (kd : String) (addr : List Char), ¬ ':' ∈ dp →
      findKnownDevice knownDevices dp = some (kd, addr) →
      basParseL dp =
        (if kd ∈ (["X", "Y", "B"] : List String) then
          .ok (kd, ((hexVal addr : Nat) : Int), 1)
        else if addr.all isDigitChar = true then
          .ok (kd, ((decVal addr : Nat) : Int), 1)
        else
          .error (.valueError ("invalid literal for int() with base 10: " ++
            String.mk addr)))) ∧
    (∀ kcs dcs : List Char, kcs ≠ [] → (∀ c ∈ kcs, isAsciiAlphaChar c = true) →
      dcs ≠ [] → (∀ c ∈ dcs, isHexDigitChar c = true) →
      isDigitChar (dcs.headD '0') = true →
      (∀ c ∈ (kcs ++ dcs).drop 1, Char.toUpper c ≠ 'H') →
      plcParseL (kcs ++ dcs) =
        (if dcs.all isDigitChar = true then
          .ok (String.mk (kcs.map Char.toUpper), ((decVal dcs : Nat) : Int), 1)
        else
          .ok (String.mk (kcs.map Char.toUpper), ((hexVal dcs : Nat) : Int), 1))) ∧
    dmParse "W10" = .ok ("W", 10, 1) ∧
    basParse "W10" = .ok ("W", 10, 1) ∧
    plcParse "W10" = .ok ("W", 10, 1) ∧
    basParse "X10" = .ok ("X", 16, 1) ∧
    dmParse "X10" = .ok ("X", 10, 1) ∧
    plcParse "X10" = .ok ("X", 10, 1) ∧
    dmParse "W1F" = .ok ("W", 0x1F, 1) ∧
    basParse "W1F" =
      .error (.valueError ("invalid literal for int() with base 10: " ++ "1F")) ∧
    plcParse "D1F" = .ok ("D", 0x1F, 1) ∧
    dmParse "D1F" = .error (.valueError "Invalid address format: 1F") ∧
    basParse "D1F" =
      .error (.valueError ("invalid literal for int() with base 10: " ++ "1F")) :=
  ⟨dm_parse_decimal_first, dm_parse_hex_fallback, bas_parse_radix, plc_parse_radix,
   by decide, by decide, by decide, by decide, by decide, by decide, by decide,
   by decide, by decide, by decide, by decide⟩

/-- Witness for C4's amended per-parser laws at concrete inputs. -/
theorem parse_radix_amended_witness :
    dmParseL (['W'] ++ ['1', '0']) = .ok ("W", (10 : Int), 1) ∧
    dmParseL (['S', 'B'] ++ ['1', 'F']) = .ok ("SB", (31 : Int), 1) ∧
    basParseL ['X', '1', '0'] = .ok ("X", (16 : Int), 1) ∧
    basParseL ['D', '1', 'F'] =
      .error (.valueError ("invalid literal for int() with base 10: " ++ "1F")) ∧
    plcParseL (['D'] ++ ['1', 'F']) = .ok ("D", (31 : Int), 1) := by
  refine ⟨?_, ?_, ?_, ?_, ?_⟩
  · exact (parse_radix_amended.1 ['W'] ['1', '0'] (by decide) (by decide)
      (by decide) (by decide) (by decide)).trans (by decide)
  · exact (parse_radix_amended.2.1 ['S', 'B'] ['1', 'F'] (by decide) (by decide)
      (by decide) (by decide) (by decide) (by decide) (by decide)).trans (by decide)
  · exact (parse_radix_amended.2.2.1 ['X', '1', '0'] "X" ['1', '0'] (by decide)
      (by decide)).trans (by decide)
  · exact (parse_radix_amended.2.2.1 ['D', '1', 'F'] "D" ['1', 'F'] (by decide)
      (by decide)).trans (by decide)
  · exact (parse_radix_amended.2.2.2.1 ['D'] ['1', 'F'] (by decide) (by decide)
      (by decide) (by decide) (by decide) (by decide)).trans (by decide)

/-! ## C8: end-code checking -/

/-- C8 (amended): response checking decodes the end-code at offset 9
(binary, 2 bytes little-endian) or 18 (ASCII, 4 hex characters) as an
unsigned 16-bit value; it returns normally iff the status is 0; a
non-zero status other than 0xC059 raises `MCProtocolError` carrying the
status code, with the textual mapping attached for the listed common
codes (e.g. 0xC053 and 0xC056); status 0xC059 instead raises
`UnsupportedCommandError`, which carries no numeric code. -/
theorem check_cmdanswer_spec :
    (∀ (ct : CommType) (recv : List Nat) (s : Int), decodeStatus ct recv = .ok s →
       (check_cmdanswer ct recv = .ok () ↔ s = 0)) ∧
    (∀ (ct : CommType) (recv : List Nat) (s : Int), decodeStatus ct recv = .ok s →
       s ≠ 0 → s ≠ 0xC059 →
       check_cmdanswer ct recv = .error (.mcProtocolError s (mcErrorMessage s))) ∧
    (∀ (ct : CommType) (recv : List Nat) (s : Int), decodeStatus ct recv = .ok s →
       s = 0xC059 → check_cmdanswer ct recv = .error .unsupportedCommandError) ∧
    (∀ (pre : List Nat) (b0 b1 : Nat) (rest : List Nat), pre.length = 9 →
       decodeStatus .binary (pre ++ b0 :: b1 :: rest) =
         .ok ((b0 : Int) + 256 * (b1 : Int))) ∧
    (∀ (pre : List Nat) (c0 c1 c2 c3 d0 d1 d2 d3 : Nat) (rest : List Nat),
       pre.length = 18 →
       hexCodeVal c0 = some d0 → hexCodeVal c1 = some d1 →
       hexCodeVal c2 = some d2 → hexCodeVal c3 = some d3 →
       decodeStatus .ascii (pre ++ c0 :: c1 :: c2 :: c3 :: rest) =
         .ok (((4096 * d0 + 256 * d1 + 16 * d2 + d3 : Nat) : Int))) ∧
    check_mcprotocol_error 0xC053 =
      .error (.mcProtocolError 0xC053 (some "デバイス範囲外")) ∧
    check_mcprotocol_error 0xC056 =
      .error (.mcProtocolError 0xC056 (some "命令異常")) := by
  refine ⟨?_, ?_, ?_, ?_, ?_, by decide, by decide⟩
  · intro ct recv s h
    simp only [check_cmdanswer, h]
    unfold check_mcprotocol_error
    by_cases h0 : s = 0
    · simp [h0]
    · rw [if_neg h0]
      constructor
      · intro hc
        by_cases h59 : s = 0xC059
        · rw [if_pos h59] at hc
          cases hc
        · rw [if_neg h59] at hc
          cases hc
      · intro h0'
        exact absurd h0' h0
  · intro ct recv s h hs0 hs59
    simp only [check_cmdanswer, h]
    unfold check_mcprotocol_error
    rw [if_neg hs0, if_neg hs59]
  · intro ct recv s h hs59
    simp only [check_cmdanswer, h]
    subst hs59
    rfl
  · intro pre b0 b1 rest hlen
    unfold decodeStatus statusIdx wordSize
    rw [← hlen, List.drop_left]
    simp only [List.take, decode_value, fromBytesLE]
    push_cast
    ring_nf
  · intro pre c0 c1 c2 c3 d0 d1 d2 d3 rest hlen h0 h1 h2 h3
    unfold decodeStatus statusIdx wordSize
    rw [← hlen, List.drop_left]
    simp only [List.take, decode_value, parseHexCodes, parseHexAux, h0, h1, h2, h3,
      if_neg (List.cons_ne_nil c0 [c1, c2, c3])]
    congr 1
    push_cast
    ring_nf

/-- Witness for C8 at a binary response with end-code 0xC053. -/
theorem check_cmdanswer_spec_witness :
    decodeStatus .binary (List.replicate 9 0 ++ [0x53, 0xC0]) = .ok 0xC053 ∧
    check_cmdanswer .binary (List.replicate 9 0 ++ [0x53, 0xC0]) =
      .error (.mcProtocolError 0xC053 (mcErrorMessage 0xC053)) :=
  ⟨by decide,
   check_cmdanswer_spec.2.1 .binary (List.replicate 9 0 ++ [0x53, 0xC0]) 0xC053
     (by decide) (by decide) (by decide)⟩

/-- C8 counterexample: at status 0xC059 the raised exception is
`UnsupportedCommandError`, which does not carry the status code — there
is no message for which it equals an `MCProtocolError 0xC059`. -/
theorem check_cmdanswer_c059_counterexample :
    check_cmdanswer .binary (List.replicate 9 0 ++ [0x59, 0xC0]) =
      .error .unsupportedCommandError ∧
    ¬ ∃ msg : Option String,
        check_cmdanswer .binary (List.replicate 9 0 ++ [0x59, 0xC0]) =
          .error (.mcProtocolError 0xC059 msg) := by
  constructor
  · decide
  · rintro ⟨msg, h⟩
    rw [show check_cmdanswer .binary (List.replicate 9 0 ++ [0x59, 0xC0]) =
      .error .unsupportedCommandError from by decide] at h
    injection h with h2
    exact PyErr.noConfusion h2

/-! ## C7: bit-read response unpacking -/

theorem asciiBitDigits_ok (recv : List Nat) :
    ∀ (n idx : Nat),
      (∀ i, i < n → ∃ c, (recv.drop (idx + i)).take 1 = [c] ∧ 48 ≤ c ∧ c ≤ 57) →
      ∃ l, asciiBitDigits recv idx n = .ok l ∧ l.length = n ∧
        ∀ i (c : Nat), i < n → (recv.drop (idx + i)).take 1 = [c] →
          l[i]? = some ((c - 48 : Nat) : Int)
  | 0, idx, _ => ⟨[], rfl, rfl, fun i c hi => absurd hi (by omega)⟩
  | n + 1, idx, h => by
      obtain ⟨c0, hc0, hlo, hhi⟩ := h 0 (Nat.succ_pos n)
      rw [Nat.add_zero] at hc0
      have hshift : ∀ i, i < n →
          ∃ c, (recv.drop ((idx + 1) + i)).take 1 = [c] ∧ 48 ≤ c ∧ c ≤ 57 := by
        intro i hi
        have := h (i + 1) (by omega)
        rwa [show idx + (i + 1) = (idx + 1) + i by omega] at this
      obtain ⟨l, hl, hlen, hidx⟩ := asciiBitDigits_ok recv n (idx + 1) hshift
      refine ⟨((c0 - 48 : Nat) : Int) :: l, ?_, by simp [hlen], ?_⟩
      · simp only [asciiBitDigits, hc0, hl]
        rw [if_pos ⟨hlo, hhi⟩]
      · intro i c hi hc
        cases i with
        | zero =>
            rw [Nat.add_zero] at hc
            rw [hc0] at hc
            injection hc with hc1
            rw [← hc1]
            simp
        | succ i =>
            rw [show idx + (i + 1) = (idx + 1) + i by omega] at hc
            simpa using hidx i c (by omega) hc

/-- C7 (amended): under a zero end-code, `batchread_bitunits` returns
exactly `readsize` entries; in binary mode entry `i` is 1 iff, in the
response byte at payload offset 11 plus `i / 2`, bit 4 is set when `i`
is even and bit 0 is set when `i` is odd (each entry being 0 or 1), so
payload bytes `[0x10, 0x01]` with `readsize = 3` yield `[1, 0, 0]`; in
ASCII mode entry `i` is the value of the digit character at payload
offset 22 plus `i` (0 or 1 whenever the payload is made of `'0'`/`'1'`
characters). -/
theorem batchread_bitunits_spec :
    (∀ (recv : List Nat) (n : Nat), check_cmdanswer .binary recv = .ok () →
       ∃ l, batchread_bitunits_recv .binary recv n = .ok l ∧ l.length = n ∧
         ∀ i, i < n →
           l[i]? = some (if fromBytesLE ((recv.drop (i / 2 + 11)).take 1) &&&
               (if i % 2 = 0 then 1 <<< 4 else 1 <<< 0) ≠ 0 then 1 else 0) ∧
           (l[i]? = some 0 ∨ l[i]? = some 1)) ∧
    (∀ (recv : List Nat) (n : Nat), check_cmdanswer .ascii recv = .ok () →
       (∀ i, i < n → ∃ c, (recv.drop (22 + i)).take 1 = [c] ∧ 48 ≤ c ∧ c ≤ 57) →
       ∃ l, batchread_bitunits_recv .ascii recv n = .ok l ∧ l.length = n ∧
         ∀ i (c : Nat), i < n → (recv.drop (22 + i)).take 1 = [c] →
           l[i]? = some ((c - 48 : Nat) : Int) ∧
           ((c = 48 ∨ c = 49) → (l[i]? = some 0 ∨ l[i]? = some 1))) ∧
    batchread_bitunits_recv .binary (List.replicate 11 0 ++ [0x10, 0x01]) 3 =
      .ok [1, 0, 0] := by
  refine ⟨?_, ?_, by decide⟩
  · intro recv n hok
    refine ⟨(List.range n).map (fun i =>
      if i % 2 = 0 then
        (if fromBytesLE ((recv.drop (i / 2 + answerIdx .binary)).take 1) &&&
            (1 <<< 4) ≠ 0 then (1 : Int) else 0)
      else
        (if fromBytesLE ((recv.drop (i / 2 + answerIdx .binary)).take 1) &&&
            (1 <<< 0) ≠ 0 then (1 : Int) else 0)), ?_, by simp, ?_⟩
    · simp only [batchread_bitunits_recv, hok]
    · intro i hi
      have hrange : (List.range n)[i]? = some i := by
        rw [List.getElem?_range hi]
      constructor
      · rw [List.getElem?_map, hrange]
        simp only [Option.map_some']
        by_cases hpar : i % 2 = 0
        · simp [answerIdx, hpar]
        · simp [answerIdx, hpar]
      · rw [List.getElem?_map, hrange]
        simp only [Option.map_some']
        by_cases hpar : i % 2 = 0
        · rw [if_pos hpar]
          by_cases hb : fromBytesLE ((recv.drop (i / 2 + answerIdx .binary)).take 1)
              &&& 1 <<< 4 ≠ 0
          · right
            rw [if_pos hb]
          · left
            rw [if_neg hb]
        · rw [if_neg hpar]
          by_cases hb : fromBytesLE ((recv.drop (i / 2 + answerIdx .binary)).take 1)
              &&& 1 <<< 0 ≠ 0
          · right
            rw [if_pos hb]
          · left
            rw [if_neg hb]
  · intro recv n hok hdig
    have hd22 : ∀ i, i < n →
        ∃ c, (recv.drop ((22 : Nat) + i)).take 1 = [c] ∧ 48 ≤ c ∧ c ≤ 57 := hdig
    obtain ⟨l, hl, hlen, hidx⟩ := asciiBitDigits_ok recv n 22 hd22
    refine ⟨l, ?_, hlen, ?_⟩
    · unfold batchread_bitunits_recv
      rw [hok]
      exact hl
    · intro i c hi hc
      have h1 := hidx i c hi hc
      refine ⟨h1, ?_⟩
      rintro (rfl | rfl)
      · left
        simpa using h1
      · right
        simpa using h1

/-- Witness for C7 at the binary response with payload `[0x10, 0x01]`
and `readsize = 3`. -/
theorem batchread_bitunits_spec_witness :
    check_cmdanswer .binary (List.replicate 11 0 ++ [0x10, 0x01]) = .ok () ∧
    ∃ l, batchread_bitunits_recv .binary (List.replicate 11 0 ++ [0x10, 0x01]) 3 =
        .ok l ∧ l.length = 3 ∧
      ∀ i, i < 3 →
        l[i]? = some (if fromBytesLE
            (((List.replicate 11 0 ++ [0x10, 0x01]).drop (i / 2 + 11)).take 1) &&&
            (if i % 2 = 0 then 1 <<< 4 else 1 <<< 0) ≠ 0 then 1 else 0) ∧
        (l[i]? = some 0 ∨ l[i]? = some 1) :=
  ⟨by decide,
   batchread_bitunits_spec.1 (List.replicate 11 0 ++ [0x10, 0x01]) 3 (by decide)⟩

/-- C7 counterexample: the binary payload `[0x10, 0x01]` with
`readsize = 3` yields `[1, 0, 0]` — entry 2 reads bit 4 of the byte
`0x01`, which is clear — not `[1, 0, 1]` as the claim's example
states. -/
theorem batchread_bitunits_example_counterexample :
    batchread_bitunits_recv .binary (List.replicate 11 0 ++ [0x10, 0x01]) 3 =
      .ok [1, 0, 0] ∧
    batchread_bitunits_recv .binary (List.replicate 11 0 ++ [0x10, 0x01]) 3 ≠
      .ok [1, 0, 1] := by
  decide

/-! ## C3 support: the word-group plan of `WordDeviceReader.read_batch` -/

/-- Whether a spec parses and is word-readable (the guard both loops of
`read_batch` apply per request). -/
def wordParseOk (s : String) : Bool :=
  match basParse s with
  | .ok (k, _, _) => canReadWord k
  | .error _ => false

theorem wordParseOk_spec (s : String) (h : wordParseOk s = true) :
    ∃ k a l, basParse s = .ok (k, a, l) ∧ canReadWord k = true := by
  cases hp : basParse s with
  | error e =>
      simp only [wordParseOk, hp] at h
      exact Bool.noConfusion h
  | ok t =>
      obtain ⟨k, a, l⟩ := t
      simp only [wordParseOk, hp] at h
      exact ⟨k, a, l, rfl, h⟩

/-- The devices a single request expands to. -/
def expandReq (r : Req) : List String :=
  match basParse r.1 with
  | .ok (k, _, _) => expandDevices k r.2.1 r.2.2
  | .error _ => []

/-- The concatenated `word_devices` list of the whole batch. -/
def expandAll (reqs : List Req) : List String := (reqs.map expandReq).flatten

/-- The `device_mapping` contents: each spec with its expansion offset
and length, offsets accumulating left to right. -/
def zipOffsets : List Req → Nat → List (String × Nat × Int)
  | [], _ => []
  | (s, _, l) :: rest, off => (s, off, l) :: zipOffsets rest (off + l.toNat)

/-- The per-request slices of the randomread result. -/
def sliceOutcomes (vals : List Int) : Nat → List Req → List DeviceReadResult
  | _, [] => []
  | off, (s, _, l) :: rest =>
      ⟨s, (vals.drop off).take l.toNat, true, none⟩ ::
        sliceOutcomes vals (off + l.toNat) rest

theorem expandAll_cons (r : Req) (rest : List Req) :
    expandAll (r :: rest) = expandReq r ++ expandAll rest := by
  simp [expandAll]

theorem expandDevices_length (k : String) (a l : Int) :
    (expandDevices k a l).length = l.toNat := by
  unfold expandDevices
  rw [List.length_map, List.length_range]

theorem expandDevices_ne_nil (k : String) (a l : Int) (h : 1 ≤ l) :
    expandDevices k a l ≠ [] := by
  intro hnil
  have hlen := congrArg List.length hnil
  rw [expandDevices_length] at hlen
  simp only [List.length_nil] at hlen
  omega

theorem zipOffsets_keys (reqs : List Req) :
    ∀ (off : Nat) (r : Req), r ∈ reqs →
      ∃ p ∈ zipOffsets reqs off, p.1 = r.1 := by
  induction reqs with
  | nil =>
      intro off r hr
      cases hr
  | cons t rest ih =>
      intro off r hr
      obtain ⟨s, a, l⟩ := t
      rcases List.mem_cons.mp hr with rfl | hr
      · exact ⟨(s, off, l), List.mem_cons_self _ _, rfl⟩
      · obtain ⟨p, hp, hpe⟩ := ih (off + l.toNat) r hr
        exact ⟨p, List.mem_cons_of_mem _ hp, hpe⟩

theorem zipOffsets_map_slice (vals : List Int) (reqs : List Req) :
    ∀ off, (zipOffsets reqs off).map (fun p =>
        (⟨p.1, (vals.drop p.2.1).take p.2.2.toNat, true, none⟩ :
          DeviceReadResult)) =
      sliceOutcomes vals off reqs := by
  induction reqs with
  | nil =>
      intro off
      rfl
  | cons t rest ih =>
      intro off
      obtain ⟨s, a, l⟩ := t
      simp only [zipOffsets, List.map_cons, sliceOutcomes, ih]

theorem wordPrepAux_all_ok (reqs : List Req) :
    ∀ (rs0 : List DeviceReadResult) (wd0 : List String)
      (mp0 : List (String × Nat × Int)),
      (∀ r ∈ reqs, wordParseOk r.1 = true) →
      (∀ r ∈ reqs, ¬ ∃ p ∈ mp0, p.1 = r.1) →
      (reqs.map (fun r => r.1)).Nodup →
      wordPrepAux reqs rs0 wd0 mp0 =
        (rs0, wd0 ++ expandAll reqs, mp0 ++ zipOffsets reqs wd0.length) := by
  induction reqs with
  | nil =>
      intro rs0 wd0 mp0 _ _ _
      simp [wordPrepAux, expandAll, zipOffsets]
  | cons t rest ih =>
      intro rs0 wd0 mp0 hok hdisj hnd
      obtain ⟨s, a, l⟩ := t
      obtain ⟨k, a', l', hk, hcw⟩ :=
        wordParseOk_spec s (hok (s, a, l) (List.mem_cons_self _ _))
      simp only [wordPrepAux, hk]
      rw [if_pos hcw]
      have hno : ¬ ∃ p ∈ mp0, p.1 = s := hdisj (s, a, l) (List.mem_cons_self _ _)
      unfold dictInsert
      rw [if_neg hno]
      have hnd' := hnd
      rw [List.map_cons] at hnd'
      have hndc := List.nodup_cons.mp hnd'
      rw [ih rs0 (wd0 ++ expandDevices k a l) (mp0 ++ [(s, wd0.length, l)])
        (fun r hr => hok r (List.mem_cons_of_mem _ hr))
        (by
          intro r hr
          rintro ⟨p, hp, hpe⟩
          rcases List.mem_append.mp hp with hp | hp
          · exact hdisj r (List.mem_cons_of_mem _ hr) ⟨p, hp, hpe⟩
          · rw [List.mem_singleton] at hp
            subst hp
            simp only at hpe
            apply hndc.1
            rw [hpe]
            exact List.mem_map_of_mem (fun r => r.1) hr)
        hndc.2]
      rw [expandAll_cons,
        show expandReq (s, a, l) = expandDevices k a l from by
          simp only [expandReq, hk]]
      simp only [zipOffsets, List.length_append, expandDevices_length]
      rw [List.append_assoc, List.append_assoc]
      rfl

/-- C3 (amended): for a non-empty batch of word-kind requests with
positive lengths and pairwise-distinct device-spec strings,
`WordDeviceReader.read_batch` expands each request into its `length`
consecutive devices in request order, issues exactly one `randomread`
with the concatenated word-device list and an empty dword list, and on
success assigns to each request the consecutive slice of the returned
word values at its expansion offset with `success = true`; if the
`randomread` raises, each request is retried with one individual
`batchread_wordunits` call, an individual failure producing an error
outcome for that request only.  (Duplicate device-spec strings collapse
in the `device_mapping` dict, so distinctness is required.) -/
theorem word_read_batch_spec (plc : PlcOracle) (reqs : List Req)
    (hne : reqs ≠ [])
    (hok : ∀ r ∈ reqs, wordParseOk r.1 = true)
    (hlen : ∀ r ∈ reqs, 1 ≤ r.2.2)
    (hnd : (reqs.map (fun r => r.1)).Nodup) :
    (∀ vals dvals, plc.randomread (expandAll reqs) [] = .ok (vals, dvals) →
       wordReadBatch plc reqs =
         (sliceOutcomes vals 0 reqs, [.randomread (expandAll reqs) []])) ∧
    (∀ e, plc.randomread (expandAll reqs) [] = .error e →
       wordReadBatch plc reqs =
         (reqs.map (fun r => (wordReadSingle plc r.1 r.2.1 r.2.2).1),
          .randomread (expandAll reqs) [] ::
            (reqs.map (fun r => (wordReadSingle plc r.1 r.2.1 r.2.2).2)).flatten)) ∧
    (∀ r ∈ reqs, ∀ k a0 l0, basParse r.1 = .ok (k, a0, l0) →
       (∀ vs, plc.batchread_wordunits (k ++ toString r.2.1) r.2.2 = .ok vs →
          wordReadSingle plc r.1 r.2.1 r.2.2 =
            (⟨r.1, vs, true, none⟩,
             [.batchreadWord (k ++ toString r.2.1) r.2.2])) ∧
       (∀ e, plc.batchread_wordunits (k ++ toString r.2.1) r.2.2 = .error e →
          wordReadSingle plc r.1 r.2.1 r.2.2 =
            (⟨r.1, [], false, some (pyStr e)⟩,
             [.batchreadWord (k ++ toString r.2.1) r.2.2]))) := by
  have hprep := wordPrepAux_all_ok reqs [] [] [] hok
    (fun r _ => by rintro ⟨p, hp, -⟩; cases hp) hnd
  simp only [List.nil_append, List.length_nil] at hprep
  have hwdne : expandAll reqs ≠ [] := by
    cases reqs with
    | nil => exact absurd rfl hne
    | cons t rest =>
        obtain ⟨s, a, l⟩ := t
        obtain ⟨k, a', l', hk, -⟩ :=
          wordParseOk_spec s (hok (s, a, l) (List.mem_cons_self _ _))
        rw [expandAll_cons]
        intro hnil
        rcases List.append_eq_nil.mp hnil with ⟨h1, -⟩
        have he : expandReq (s, a, l) = expandDevices k a l := by
          simp only [expandReq, hk]
        rw [he] at h1
        exact expandDevices_ne_nil k a l (hlen (s, a, l) (List.mem_cons_self _ _)) h1
  refine ⟨?_, ?_, ?_⟩
  · intro vals dvals h
    simp only [wordReadBatch, hprep]
    rw [if_neg hwdne]
    simp only [h, List.nil_append, zipOffsets_map_slice]
  · intro e h
    simp only [wordReadBatch, hprep]
    rw [if_neg hwdne]
    simp only [h, List.nil_append]
    have hfil : reqs.filter
        (fun r => decide (∃ p ∈ zipOffsets reqs 0, p.1 = r.1)) = reqs := by
      apply List.filter_eq_self.mpr
      intro r hr
      exact decide_eq_true (zipOffsets_keys reqs 0 r hr)
    rw [hfil, List.map_map, List.map_map]
    rfl
  · intro r hr k a0 l0 hk
    obtain ⟨s, a, l⟩ := r
    obtain ⟨k', a', l', hk', hcw⟩ :=
      wordParseOk_spec s (hok (s, a, l) hr)
    simp only at hk
    rw [hk] at hk'
    injection hk' with ht
    have hkk : k = k' := congrArg (fun t => t.1) ht
    rw [← hkk] at hcw
    constructor
    · intro vs hvs
      simp only [wordReadSingle, hk]
      rw [if_pos hcw]
      simp only [hvs]
    · intro e he
      simp only [wordReadSingle, hk]
      rw [if_pos hcw]
      simp only [he]
      rfl

/-- An oracle whose `randomread` answers `[10]` (used by the C3 witness). -/
def okOracle : PlcOracle where
  randomread := fun _ _ => .ok ([10], [])
  batchread_wordunits := fun _ _ => .ok [7]
  batchread_bitunits := fun _ _ => .ok [1]

/-- Witness for C3 at the single request `("D100", 100, 1)` against
`okOracle`. -/
theorem word_read_batch_spec_witness :
    (∀ r ∈ ([("D100", 100, 1)] : List Req), wordParseOk r.1 = true) ∧
    wordReadBatch okOracle [("D100", 100, 1)] =
      (sliceOutcomes [10] 0 [("D100", 100, 1)],
       [.randomread (expandAll [("D100", 100, 1)]) []]) :=
  ⟨by decide,
   (word_read_batch_spec okOracle [("D100", 100, 1)] (by decide) (by decide)
      (by decide) (by decide)).1 [10] [] (by decide)⟩

/-- An oracle whose `randomread` answers `[10, 20]` (used by the C3
counterexample). -/
def dupOracle : PlcOracle where
  randomread := fun _ _ => .ok ([10, 20], [])
  batchread_wordunits := fun _ _ => .error (.valueError "x")
  batchread_bitunits := fun _ _ => .error (.valueError "x")

/-- C3 counterexample: two identical requests `("D100", 100, 1)` collapse
in the `device_mapping` dict — the batch returns a single outcome (with
the second request's slice `[20]`), not one outcome per request, so the
claim fails for batches with duplicate specs. -/
theorem word_read_batch_duplicate_counterexample :
    (wordReadBatch dupOracle [("D100", 100, 1), ("D100", 100, 1)]).1 =
      [⟨"D100", [20], true, none⟩] ∧
    (wordReadBatch dupOracle [("D100", 100, 1), ("D100", 100, 1)]).2 =
      [.randomread ["D100", "D100"] []] ∧
    (wordReadBatch dupOracle [("D100", 100, 1), ("D100", 100, 1)]).1.length ≠ 2 := by
  decide

/-! ## C10 support: grouping invariants of the batch dispatcher -/

/-- The group key a spec string is filed under. -/
def keyOf (s : String) : String :=
  match basParse s with
  | .ok (k, _, _) => keyOfOk k
  | .error _ => "error_" ++ s

/-- The request tuple a spec string is filed as. -/
def tupleOf (s : String) : Req :=
  match basParse s with
  | .ok (_, a, l) => (s, a, l)
  | .error _ => (s, 0, 1)

theorem tupleOf_fst (s : String) : (tupleOf s).1 = s := by
  unfold tupleOf
  cases basParse s with
  | ok t =>
      obtain ⟨k, a, l⟩ := t
      rfl
  | error e => rfl

theorem findKnownDevice_mem (l : List String) (dp : List Char) (kd : String)
    (rest : List Char) (h : findKnownDevice l dp = some (kd, rest)) : kd ∈ l := by
  induction l with
  | nil => cases h
  | cons x xs ih =>
      simp only [findKnownDevice] at h
      split at h
      · injection h with h2
        rw [show x = kd from congrArg (fun p => p.1) h2]
        exact List.mem_cons_self _ _
      · exact List.mem_cons_of_mem _ (ih h)

theorem parseBaseCore_kind_known (orig dp : List Char) (len : Int)
    (k : String) (a l : Int) (h : parseBaseCore orig dp len = .ok (k, a, l)) :
    k ∈ knownDevices := by
  unfold parseBaseCore at h
  split at h
  · cases h
  · next kd addrStr heq =>
      split at h
      · split at h
        · injection h with h2
          rw [show kd = k from congrArg (fun t => t.1) h2] at heq
          exact findKnownDevice_mem _ _ _ _ heq
        · cases h
      · split at h
        · injection h with h2
          rw [show kd = k from congrArg (fun t => t.1) h2] at heq
          exact findKnownDevice_mem _ _ _ _ heq
        · cases h

theorem basParse_kind_known (s k : String) (a l : Int)
    (h : basParse s = .ok (k, a, l)) : k ∈ knownDevices := by
  unfold basParse basParseL at h
  split at h
  · split at h
    · cases h
    · exact parseBaseCore_kind_known _ _ _ _ _ _ h
  · exact parseBaseCore_kind_known _ _ _ _ _ _ h

theorem known_length_le_two : ∀ k ∈ knownDevices, k.length ≤ 2 := by decide

theorem word_not_known : ("word" : String) ∉ knownDevices := by decide

theorem bit_not_known : ("bit" : String) ∉ knownDevices := by decide

/-- A group key equal to a known, unsupported kind can only come from a
spec that parses to that kind. -/
theorem keyOf_eq_kind_cases (s' k : String) (hk : k ∈ knownDevices)
    (h : keyOf s' = k) :
    (∃ a l, basParse s' = .ok (k, a, l) ∧ canReadWord k = false ∧
      canReadBit k = false) ∨ canReadWord k = true ∨ canReadBit k = true := by
  cases hp : basParse s' with
  | error e =>
      simp only [keyOf, hp] at h
      have hlen := congrArg String.length h
      rw [String.length_append] at hlen
      have h2 := known_length_le_two k hk
      have : ("error_" : String).length = 6 := rfl
      omega
  | ok t =>
      obtain ⟨k'', a, l⟩ := t
      simp only [keyOf, hp, keyOfOk] at h
      by_cases hw'' : canReadWord k'' = true
      · rw [if_pos hw''] at h
        rw [← h] at hk
        exact absurd hk word_not_known
      · rw [if_neg hw''] at h
        by_cases hb'' : canReadBit k'' = true
        · rw [if_pos hb''] at h
          rw [← h] at hk
          exact absurd hk bit_not_known
        · rw [if_neg hb''] at h
          subst h
          exact Or.inl ⟨a, l, rfl, Bool.eq_false_iff.mpr hw'',
            Bool.eq_false_iff.mpr hb''⟩

/-- `runGroup` on a group whose members all parse to one unsupported
kind: every member becomes an `Unsupported device type` outcome and no
PLC command is issued. -/
theorem runGroup_unsupported (plc : PlcOracle) (key k : String) (reqs : List Req)
    (hw : canReadWord k = false) (hb : canReadBit k = false)
    (hmem : ∀ t ∈ reqs, ∃ a l, basParse t.1 = .ok (k, a, l)) :
    runGroup plc key reqs = (reqs.map (fun t => unsupportedRes t.1 key), []) := by
  cases reqs with
  | nil => rfl
  | cons t rest =>
      obtain ⟨s0, a0, l0⟩ := t
      obtain ⟨a, l, hp⟩ := hmem (s0, a0, l0) (List.mem_cons_self _ _)
      simp only at hp
      simp only [runGroup, hp]
      rw [if_neg (by rw [hw]; exact Bool.false_ne_true),
        if_neg (by rw [hb]; exact Bool.false_ne_true)]

/-- The per-entry invariant of the grouping dict: every stored tuple is
`tupleOf` its spec and sits under that spec's key. -/
def GroupsInv (gs : List (String × List Req)) : Prop :=
  ∀ p ∈ gs, ∀ t ∈ p.2, keyOf t.1 = p.1 ∧ t = tupleOf t.1

theorem dictAppendReq_inv (gs : List (String × List Req)) (key : String) (t : Req)
    (hInv : GroupsInv gs) (hkey : keyOf t.1 = key) (htup : t = tupleOf t.1) :
    GroupsInv (dictAppendReq gs key t) := by
  intro p hp t' ht'
  unfold dictAppendReq at hp
  split at hp
  · obtain ⟨q, hq, hpq⟩ := List.mem_map.mp hp
    by_cases hqk : q.1 = key
    · rw [if_pos hqk] at hpq
      subst hpq
      rcases List.mem_append.mp ht' with ht' | ht'
      · exact hInv q hq t' ht'
      · rw [List.mem_singleton] at ht'
        subst ht'
        exact ⟨by rw [hkey, hqk], htup⟩
    · rw [if_neg hqk] at hpq
      subst hpq
      exact hInv q hq t' ht'
  · rcases List.mem_append.mp hp with hp | hp
    · exact hInv p hp t' ht'
    · rw [List.mem_singleton] at hp
      subst hp
      rw [List.mem_singleton] at ht'
      subst ht'
      exact ⟨hkey, htup⟩

theorem dictSetReq_inv (gs : List (String × List Req)) (key : String) (v : List Req)
    (hInv : GroupsInv gs) (hv : ∀ t ∈ v, keyOf t.1 = key ∧ t = tupleOf t.1) :
    GroupsInv (dictSetReq gs key v) := by
  intro p hp t' ht'
  unfold dictSetReq at hp
  split at hp
  · obtain ⟨q, hq, hpq⟩ := List.mem_map.mp hp
    by_cases hqk : q.1 = key
    · rw [if_pos hqk] at hpq
      subst hpq
      have hvt := hv t' ht'
      refine ⟨?_, hvt.2⟩
      show keyOf t'.1 = q.1
      rw [hqk]
      exact hvt.1
    · rw [if_neg hqk] at hpq
      subst hpq
      exact hInv q hq t' ht'
  · rcases List.mem_append.mp hp with hp | hp
    · exact hInv p hp t' ht'
    · rw [List.mem_singleton] at hp
      subst hp
      exact hv t' ht'

theorem groupDevices_inv (specs : List String) : GroupsInv (groupDevices specs) := by
  suffices h : ∀ gs0, GroupsInv gs0 → GroupsInv (specs.foldl groupStep gs0) by
    exact h [] (fun p hp => absurd hp (List.not_mem_nil p))
  induction specs with
  | nil =>
      intro gs0 h
      exact h
  | cons s rest ih =>
      intro gs0 h0
      simp only [List.foldl_cons]
      apply ih
      unfold groupStep
      cases hp : basParse s with
      | ok t =>
          obtain ⟨k, a, l⟩ := t
          exact dictAppendReq_inv gs0 (keyOfOk k) (s, a, l) h0
            (by simp only [keyOf, hp]) (by simp only [tupleOf, hp])
      | error e =>
          refine dictSetReq_inv gs0 ("error_" ++ s) [(s, 0, 1)] h0 ?_
          intro t ht
          rw [List.mem_singleton] at ht
          subst ht
          exact ⟨by simp only [keyOf, hp], by simp only [tupleOf, hp]⟩

/-- The spec's own group: its key is present and holds its tuple. -/
def HasGroup (gs : List (String × List Req)) (s : String) : Prop :=
  ∃ reqs, (keyOf s, reqs) ∈ gs ∧ tupleOf s ∈ reqs

theorem dictAppendReq_mem_self (gs : List (String × List Req)) (key : String)
    (t : Req) : ∃ reqs, (key, reqs) ∈ dictAppendReq gs key t ∧ t ∈ reqs := by
  unfold dictAppendReq
  split
  · next hex =>
      obtain ⟨q, hq, hqk⟩ := hex
      refine ⟨q.2 ++ [t], List.mem_map.mpr ⟨q, hq, ?_⟩, by simp⟩
      rw [if_pos hqk, hqk]
  · exact ⟨[t], List.mem_append_right _ (List.mem_singleton.mpr rfl),
      List.mem_singleton.mpr rfl⟩

theorem dictAppendReq_preserve (gs : List (String × List Req)) (key : String)
    (t : Req) (s : String) (h : HasGroup gs s) :
    HasGroup (dictAppendReq gs key t) s := by
  obtain ⟨reqs, hg, htup⟩ := h
  unfold dictAppendReq
  split
  · by_cases hk : keyOf s = key
    · refine ⟨reqs ++ [t],
        List.mem_map.mpr ⟨(keyOf s, reqs), hg, ?_⟩,
        List.mem_append_left _ htup⟩
      rw [if_pos hk]
    · exact ⟨reqs, List.mem_map.mpr ⟨(keyOf s, reqs), hg, by rw [if_neg hk]⟩, htup⟩
  · exact ⟨reqs, List.mem_append_left _ hg, htup⟩

theorem keyOf_eq_error_key (s s'' : String) (h : keyOf s = "error_" ++ s'') :
    s = s'' ∧ tupleOf s = (s, 0, 1) := by
  have h6 : ("error_" : String).length = 6 := rfl
  cases hp : basParse s with
  | ok t =>
      obtain ⟨k, a, l⟩ := t
      simp only [keyOf, hp, keyOfOk] at h
      by_cases hw : canReadWord k = true
      · rw [if_pos hw] at h
        have hlen := congrArg String.length h
        rw [String.length_append] at hlen
        have h4 : ("word" : String).length = 4 := rfl
        omega
      · rw [if_neg hw] at h
        by_cases hb : canReadBit k = true
        · rw [if_pos hb] at h
          have hlen := congrArg String.length h
          rw [String.length_append] at hlen
          have h3 : ("bit" : String).length = 3 := rfl
          omega
        · rw [if_neg hb] at h
          have hkk := known_length_le_two k (basParse_kind_known s k a l hp)
          have hlen := congrArg String.length h
          rw [String.length_append] at hlen
          omega
  | error e =>
      simp only [keyOf, hp] at h
      have hdata := congrArg String.data h
      rw [String.data_append, String.data_append] at hdata
      have hds : s.data = s''.data := List.append_cancel_left hdata
      have hss : s = s'' := congrArg String.mk hds
      exact ⟨hss, by simp only [tupleOf, hp]⟩

theorem dictSetReq_preserve_err (gs : List (String × List Req)) (s'' s : String)
    (h : HasGroup gs s) :
    HasGroup (dictSetReq gs ("error_" ++ s'') [(s'', 0, 1)]) s := by
  obtain ⟨reqs, hg, htup⟩ := h
  unfold dictSetReq
  split
  · by_cases hk : keyOf s = "error_" ++ s''
    · obtain ⟨hss, htp⟩ := keyOf_eq_error_key s s'' hk
      refine ⟨[(s'', 0, 1)],
        List.mem_map.mpr ⟨(keyOf s, reqs), hg, ?_⟩, ?_⟩
      · rw [if_pos hk]
      · rw [List.mem_singleton, htp, hss]
    · exact ⟨reqs, List.mem_map.mpr ⟨(keyOf s, reqs), hg, by rw [if_neg hk]⟩, htup⟩
  · exact ⟨reqs, List.mem_append_left _ hg, htup⟩

theorem groupStep_self (gs : List (String × List Req)) (s : String) :
    HasGroup (groupStep gs s) s := by
  unfold groupStep
  cases hp : basParse s with
  | ok t =>
      obtain ⟨k, a, l⟩ := t
      obtain ⟨reqs, hmem, htin⟩ := dictAppendReq_mem_self gs (keyOfOk k) (s, a, l)
      refine ⟨reqs, ?_, ?_⟩
      · rw [show keyOf s = keyOfOk k from by simp only [keyOf, hp]]
        exact hmem
      · rw [show tupleOf s = (s, a, l) from by simp only [tupleOf, hp]]
        exact htin
  | error e =>
      refine ⟨[(s, 0, 1)], ?_, ?_⟩
      · rw [show keyOf s = "error_" ++ s from by simp only [keyOf, hp]]
        unfold dictSetReq
        by_cases hex : ∃ p ∈ gs, p.1 = "error_" ++ s
        · rw [if_pos hex]
          obtain ⟨q, hq, hqk⟩ := hex
          exact List.mem_map.mpr ⟨q, hq, by rw [if_pos hqk, hqk]⟩
        · rw [if_neg hex]
          exact List.mem_append_right _ (List.mem_singleton.mpr rfl)
      · rw [show tupleOf s = (s, 0, 1) from by simp only [tupleOf, hp]]
        exact List.mem_singleton.mpr rfl

theorem groupStep_preserve (gs : List (String × List Req)) (s' s : String)
    (h : HasGroup gs s') : HasGroup (groupStep gs s) s' := by
  unfold groupStep
  cases hp : basParse s with
  | ok t =>
      obtain ⟨k, a, l⟩ := t
      exact dictAppendReq_preserve gs (keyOfOk k) (s, a, l) s' h
  | error e =>
      exact dictSetReq_preserve_err gs s s' h

theorem groupDevices_mem (specs : List String) (s : String) (hs : s ∈ specs) :
    HasGroup (groupDevices specs) s := by
  suffices h : ∀ gs0, (s ∈ specs ∨ HasGroup gs0 s) →
      HasGroup (specs.foldl groupStep gs0) s by
    exact h [] (Or.inl hs)
  clear hs
  induction specs with
  | nil =>
      intro gs0 h
      rcases h with h | h
      · cases h
      · exact h
  | cons x rest ih =>
      intro gs0 h
      simp only [List.foldl_cons]
      apply ih
      rcases h with h | h
      · rcases List.mem_cons.mp h with rfl | h
        · exact Or.inr (groupStep_self gs0 s)
        · exact Or.inl h
      · exact Or.inr (groupStep_preserve gs0 s x h)

/-! ## C10 support: result devices come from the group's requests -/

theorem wordReadSingle_device (plc : PlcOracle) (s : String) (a l : Int) :
    (wordReadSingle plc s a l).1.device = s := by
  unfold wordReadSingle
  split
  · rfl
  · split
    · split
      · rfl
      · rfl
    · rfl

theorem bitReadSingle_device (plc : PlcOracle) (s : String) (a l : Int) :
    (bitReadSingle plc s a l).1.device = s := by
  cases hp : basParse s with
  | error e =>
      simp only [bitReadSingle, hp]
      rfl
  | ok t =>
      obtain ⟨k, a', l'⟩ := t
      simp only [bitReadSingle, hp]
      by_cases hb : canReadBit k = true
      · rw [if_pos hb]
        by_cases hl : l = 1
        · rw [if_pos hl]
          cases plc.batchread_bitunits (bitDeviceAddrStr k a) 1 <;> rfl
        · rw [if_neg hl]
          cases plc.batchread_bitunits (bitDeviceAddrStr k a) l <;> rfl
      · rw [if_neg hb]
        rfl

theorem bitReadBatch_result_devices (plc : PlcOracle) :
    ∀ (reqs : List Req) (r : DeviceReadResult),
      r ∈ (bitReadBatch plc reqs).1 → ∃ t ∈ reqs, r.device = t.1
  | [], r, h => absurd h (List.not_mem_nil r)
  | (s, a, l) :: rest, r, h => by
      rcases hbb : bitReadBatch plc rest with ⟨rs, cs⟩
      simp only [bitReadBatch, hbb] at h
      rcases List.mem_cons.mp h with rfl | hmem
      · refine ⟨(s, a, l), List.mem_cons_self _ _, ?_⟩
        split
        · rfl
        · split
          · exact bitReadSingle_device plc s a l
          · rfl
      · have hr : r ∈ (bitReadBatch plc rest).1 := by rw [hbb]; exact hmem
        obtain ⟨t, ht, hd⟩ := bitReadBatch_result_devices plc rest r hr
        exact ⟨t, List.mem_cons_of_mem _ ht, hd⟩

theorem dictInsert_mem (mp0 : List (String × Nat × Int)) (s : String)
    (v : Nat × Int) (p : String × Nat × Int) (h : p ∈ dictInsert mp0 s v) :
    p ∈ mp0 ∨ p.1 = s := by
  unfold dictInsert at h
  split at h
  · obtain ⟨q, hq, hpq⟩ := List.mem_map.mp h
    by_cases hqk : q.1 = s
    · rw [if_pos hqk] at hpq
      subst hpq
      exact Or.inr hqk
    · rw [if_neg hqk] at hpq
      subst hpq
      exact Or.inl hq
  · rcases List.mem_append.mp h with h | h
    · exact Or.inl h
    · rw [List.mem_singleton] at h
      subst h
      exact Or.inr rfl

theorem wordPrepAux_sub (reqs : List Req) :
    ∀ (rs0 : List DeviceReadResult) (wd0 : List String)
      (mp0 : List (String × Nat × Int)),
      (∀ r ∈ (wordPrepAux reqs rs0 wd0 mp0).1,
        r ∈ rs0 ∨ ∃ t ∈ reqs, r.device = t.1) ∧
      (∀ p ∈ (wordPrepAux reqs rs0 wd0 mp0).2.2,
        p ∈ mp0 ∨ ∃ t ∈ reqs, p.1 = t.1) := by
  induction reqs with
  | nil =>
      intro rs0 wd0 mp0
      exact ⟨fun r h => Or.inl h, fun p h => Or.inl h⟩
  | cons t rest ih =>
      intro rs0 wd0 mp0
      obtain ⟨s, a, l⟩ := t
      have hlift : ∀ (q : Req), (∃ u ∈ rest, q.1 = u.1) →
          ∃ u ∈ (s, a, l) :: rest, q.1 = u.1 :=
        fun q ⟨u, hu, he⟩ => ⟨u, List.mem_cons_of_mem _ hu, he⟩
      cases hp : basParse s with
      | error e =>
          simp only [wordPrepAux, hp]
          have hih := ih (rs0 ++ [errRes s (pyStr e)]) wd0 mp0
          constructor
          · intro r h
            rcases hih.1 r h with h1 | h1
            · rcases List.mem_append.mp h1 with h1 | h1
              · exact Or.inl h1
              · rw [List.mem_singleton] at h1
                subst h1
                exact Or.inr ⟨(s, a, l), List.mem_cons_self _ _, rfl⟩
            · obtain ⟨u, hu, he⟩ := h1
              exact Or.inr ⟨u, List.mem_cons_of_mem _ hu, he⟩
          · intro p h
            rcases hih.2 p h with h1 | h1
            · exact Or.inl h1
            · obtain ⟨u, hu, he⟩ := h1
              exact Or.inr ⟨u, List.mem_cons_of_mem _ hu, he⟩
      | ok tt =>
          obtain ⟨k, a', l'⟩ := tt
          by_cases hcw : canReadWord k = true
          · simp only [wordPrepAux, hp]
            rw [if_pos hcw]
            have hih := ih rs0 (wd0 ++ expandDevices k a l)
              (dictInsert mp0 s (wd0.length, l))
            constructor
            · intro r h
              rcases hih.1 r h with h1 | h1
              · exact Or.inl h1
              · obtain ⟨u, hu, he⟩ := h1
                exact Or.inr ⟨u, List.mem_cons_of_mem _ hu, he⟩
            · intro p h
              rcases hih.2 p h with h1 | h1
              · rcases dictInsert_mem mp0 s (wd0.length, l) p h1 with h2 | h2
                · exact Or.inl h2
                · exact Or.inr ⟨(s, a, l), List.mem_cons_self _ _, h2⟩
              · obtain ⟨u, hu, he⟩ := h1
                exact Or.inr ⟨u, List.mem_cons_of_mem _ hu, he⟩
          · simp only [wordPrepAux, hp]
            rw [if_neg hcw]
            have hih := ih
              (rs0 ++ [errRes s ("Device type " ++ k ++ " not supported")]) wd0 mp0
            constructor
            · intro r h
              rcases hih.1 r h with h1 | h1
              · rcases List.mem_append.mp h1 with h1 | h1
                · exact Or.inl h1
                · rw [List.mem_singleton] at h1
                  subst h1
                  exact Or.inr ⟨(s, a, l), List.mem_cons_self _ _, rfl⟩
              · obtain ⟨u, hu, he⟩ := h1
                exact Or.inr ⟨u, List.mem_cons_of_mem _ hu, he⟩
            · intro p h
              rcases hih.2 p h with h1 | h1
              · exact Or.inl h1
              · obtain ⟨u, hu, he⟩ := h1
                exact Or.inr ⟨u, List.mem_cons_of_mem _ hu, he⟩

theorem wordReadBatch_result_devices (plc : PlcOracle) (reqs : List Req)
    (r : DeviceReadResult) (h : r ∈ (wordReadBatch plc reqs).1) :
    ∃ t ∈ reqs, r.device = t.1 := by
  have hsub := wordPrepAux_sub reqs [] [] []
  rcases hw : wordPrepAux reqs [] [] [] with ⟨rs, wd, mp⟩
  rw [hw] at hsub
  simp only [wordReadBatch, hw] at h
  by_cases hwd : wd = []
  · rw [if_pos hwd] at h
    rcases hsub.1 r h with h1 | h1
    · cases h1
    · exact h1
  · rw [if_neg hwd] at h
    cases ho : plc.randomread wd [] with
    | ok pp =>
        obtain ⟨vals, dvals⟩ := pp
        simp only [ho] at h
        rcases List.mem_append.mp h with h1 | h1
        · rcases hsub.1 r h1 with h2 | h2
          · cases h2
          · exact h2
        · obtain ⟨p, hpmem, hpe⟩ := List.mem_map.mp h1
          rcases hsub.2 p hpmem with h2 | h2
          · cases h2
          · obtain ⟨u, hu, he⟩ := h2
            refine ⟨u, hu, ?_⟩
            rw [← hpe, ← he]
    | error e =>
        simp only [ho] at h
        rcases List.mem_append.mp h with h1 | h1
        · rcases hsub.1 r h1 with h2 | h2
          · cases h2
          · exact h2
        · rw [List.map_map] at h1
          obtain ⟨q, hqmem, hqe⟩ := List.mem_map.mp h1
          refine ⟨q, List.mem_of_mem_filter hqmem, ?_⟩
          rw [← hqe]
          exact wordReadSingle_device plc q.1 q.2.1 q.2.2

theorem runGroup_result_devices (plc : PlcOracle) (key : String) (reqs : List Req)
    (r : DeviceReadResult) (h : r ∈ (runGroup plc key reqs).1) :
    ∃ t ∈ reqs, r.device = t.1 := by
  cases reqs with
  | nil =>
      cases h
  | cons t0 rest =>
      obtain ⟨s0, a0, l0⟩ := t0
      cases hp : basParse s0 with
      | error e =>
          simp only [runGroup, hp] at h
          obtain ⟨t, ht, hte⟩ := List.mem_map.mp h
          exact ⟨t, ht, by rw [← hte]; rfl⟩
      | ok tt =>
          obtain ⟨k0, ak, lk⟩ := tt
          simp only [runGroup, hp] at h
          by_cases hw : canReadWord k0 = true
          · rw [if_pos hw] at h
            exact wordReadBatch_result_devices plc _ r h
          · rw [if_neg hw] at h
            by_cases hb : canReadBit k0 = true
            · rw [if_pos hb] at h
              exact bitReadBatch_result_devices plc _ r h
            · rw [if_neg hb] at h
              obtain ⟨t, ht, hte⟩ := List.mem_map.mp h
              exact ⟨t, ht, by rw [← hte]; rfl⟩

theorem lastResultFor_all_aux (d : String) (E : DeviceReadResult) :
    ∀ (rs : List DeviceReadResult) (acc : Option DeviceReadResult),
      (∀ r ∈ rs, r.device = d → r = E) →
      ((∃ r ∈ rs, r.device = d) →
        rs.foldl (fun acc r => if r.device = d then some r else acc) acc = some E) ∧
      ((¬ ∃ r ∈ rs, r.device = d) →
        rs.foldl (fun acc r => if r.device = d then some r else acc) acc = acc)
  | [], acc, _ => ⟨fun hex => absurd hex (by simp), fun _ => rfl⟩
  | x :: xs, acc, hall => by
      simp only [List.foldl_cons]
      have htl : ∀ r ∈ xs, r.device = d → r = E :=
        fun r hr => hall r (List.mem_cons_of_mem _ hr)
      by_cases hx : x.device = d
      · rw [if_pos hx]
        have hxE : x = E := hall x (List.mem_cons_self _ _) hx
        constructor
        · intro _
          by_cases hex : ∃ r ∈ xs, r.device = d
          · exact (lastResultFor_all_aux d E xs (some x) htl).1 hex
          · rw [(lastResultFor_all_aux d E xs (some x) htl).2 hex, hxE]
        · intro hnex
          exact absurd ⟨x, List.mem_cons_self _ _, hx⟩ hnex
      · rw [if_neg hx]
        constructor
        · intro hex
          have hex' : ∃ r ∈ xs, r.device = d := by
            rcases hex with ⟨r, hr, hrd⟩
            rcases List.mem_cons.mp hr with rfl | hr
            · exact absurd hrd hx
            · exact ⟨r, hr, hrd⟩
          exact (lastResultFor_all_aux d E xs acc htl).1 hex'
        · intro hnex
          have hnex' : ¬ ∃ r ∈ xs, r.device = d := by
            rintro ⟨r, hr, hrd⟩
            exact hnex ⟨r, List.mem_cons_of_mem _ hr, hrd⟩
          exact (lastResultFor_all_aux d E xs acc htl).2 hnex'

theorem lastResultFor_all_eq (rs : List DeviceReadResult) (d : String)
    (E : DeviceReadResult) (hall : ∀ r ∈ rs, r.device = d → r = E)
    (hex : ∃ r ∈ rs, r.device = d) : lastResultFor rs d = some E :=
  (lastResultFor_all_aux d E rs none hall).1 hex

/-! ## C10: unsupported kinds become error outcomes with no PLC command -/

/-- C10: in the batch dispatcher only the kinds `{D, W, R, ZR}` (word
reader) and `{X, Y, M}` (bit reader) can succeed: every input whose kind
parses successfully but matches neither reader yields the outcome
`Unsupported device type: <kind>` at its input position, and the group
holding that input issues no PLC command. -/
theorem unsupported_kind_outcome (plc : PlcOracle) (specs : List String)
    (i : Nat) (s k : String) (a l : Int)
    (hi : specs[i]? = some s)
    (hp : basParse s = .ok (k, a, l))
    (hw : canReadWord k = false) (hb : canReadBit k = false) :
    (batch_read_devices plc specs).1[i]? =
      some ⟨s, [], false, some ("Unsupported device type: " ++ k)⟩ ∧
    (∀ key reqs a' l', (key, reqs) ∈ groupDevices specs → (s, a', l') ∈ reqs →
      (runGroup plc key reqs).2 = []) := by
  have hk : k ∈ knownDevices := basParse_kind_known s k a l hp
  have hkey : keyOf s = k := by
    simp only [keyOf, hp, keyOfOk]
    rw [if_neg (by rw [hw]; exact Bool.false_ne_true),
      if_neg (by rw [hb]; exact Bool.false_ne_true)]
  have htup : tupleOf s = (s, a, l) := by simp only [tupleOf, hp]
  have hInv := groupDevices_inv specs
  have hmem_s : s ∈ specs := by
    obtain ⟨hlt, he⟩ := List.getElem?_eq_some.mp hi
    rw [← he]
    exact List.getElem_mem hlt
  -- every group whose key is `k` consists of requests parsing to kind `k`
  have hgroupk : ∀ key reqs, (key, reqs) ∈ groupDevices specs → key = k →
      ∀ t ∈ reqs, ∃ a0 l0, basParse t.1 = .ok (k, a0, l0) := by
    intro key reqs hg hkk t ht
    obtain ⟨hko, -⟩ := hInv (key, reqs) hg t ht
    rcases keyOf_eq_kind_cases t.1 k hk (by rw [hko, hkk]) with h1 | h1 | h1
    · exact ⟨h1.choose, h1.choose_spec.choose, h1.choose_spec.choose_spec.1⟩
    · rw [h1] at hw
      cases hw
    · rw [h1] at hb
      cases hb
  -- the per-spec error result
  constructor
  · set E : DeviceReadResult :=
      ⟨s, [], false, some ("Unsupported device type: " ++ k)⟩ with hE
    set RS := (((groupDevices specs).map
      (fun g => runGroup plc g.1 g.2)).map Prod.fst).flatten with hRS
    have hall : ∀ r ∈ RS, r.device = s → r = E := by
      intro r hr hrd
      rw [hRS] at hr
      obtain ⟨lr, hlr, hrin⟩ := List.mem_flatten.mp hr
      rw [List.map_map] at hlr
      obtain ⟨g, hg, hge⟩ := List.mem_map.mp hlr
      rw [← hge] at hrin
      obtain ⟨t, ht, htd⟩ := runGroup_result_devices plc g.1 g.2 r hrin
      obtain ⟨hko, -⟩ := hInv g hg t ht
      have hts : t.1 = s := by rw [← htd, hrd]
      have hgk : g.1 = k := by rw [← hko, hts, hkey]
      have hrun := runGroup_unsupported plc g.1 k g.2 hw hb
        (hgroupk g.1 g.2 hg hgk)
      simp only [Function.comp_apply, hrun] at hrin
      obtain ⟨t', ht', hte'⟩ := List.mem_map.mp hrin
      have hte2 : unsupportedRes t'.1 g.1 = r := hte'
      rw [← hte2] at hrd ⊢
      have hts' : t'.1 = s := hrd
      rw [hE]
      unfold unsupportedRes
      rw [hts', hgk]
  -- existence of the error result
    have hexist : ∃ r ∈ RS, r.device = s := by
      obtain ⟨reqs0, hg0, ht0⟩ := groupDevices_mem specs s hmem_s
      rw [hkey] at hg0
      have hrun := runGroup_unsupported plc k k reqs0 hw hb
        (hgroupk k reqs0 hg0 rfl)
      refine ⟨unsupportedRes (tupleOf s).1 k, ?_, by rw [tupleOf_fst]; rfl⟩
      rw [hRS]
      apply List.mem_flatten.mpr
      refine ⟨(runGroup plc k reqs0).1, ?_, ?_⟩
      · rw [List.map_map]
        exact List.mem_map.mpr ⟨(k, reqs0), hg0, rfl⟩
      · rw [hrun]
        exact List.mem_map.mpr ⟨tupleOf s, ht0, rfl⟩
    have hlast : lastResultFor RS s = some E := lastResultFor_all_eq RS s E hall hexist
    have hspecs_ne : specs ≠ [] := by
      intro hnil
      rw [hnil] at hmem_s
      cases hmem_s
    unfold batch_read_devices
    rw [if_neg hspecs_ne]
    simp only [reorderResults]
    rw [List.getElem?_map, hi]
    simp only [Option.map_some']
    rw [hlast]
    rfl
  · intro key reqs a' l' hg hmemr
    obtain ⟨hko, -⟩ := hInv (key, reqs) hg (s, a', l') hmemr
    have hkk : key = k := by
      simp only at hko
      rw [← hko, hkey]
    have hrun := runGroup_unsupported plc key k reqs hw hb
      (hgroupk key reqs hg hkk)
    rw [hrun]

theorem unsupported_kind_outcome_witness :
    (["SM0"] : List String)[0]? = some "SM0" ∧
    basParse "SM0" = .ok ("SM", 0, 1) ∧
    canReadWord "SM" = false ∧ canReadBit "SM" = false ∧
    (batch_read_devices nullOracle ["SM0"]).1[0]? =
      some ⟨"SM0", [], false, some ("Unsupported device type: " ++ "SM")⟩ ∧
    ("SM", [("SM0", (0 : Int), (1 : Int))]) ∈ groupDevices ["SM0"] ∧
    (runGroup nullOracle "SM" [("SM0", 0, 1)]).2 = [] := by
  refine ⟨by decide, by decide, by decide, by decide, ?_, by decide, ?_⟩
  · exact (unsupported_kind_outcome nullOracle ["SM0"] 0 "SM0" "SM" 0 1
      (by decide) (by decide) (by decide) (by decide)).1
  · exact (unsupported_kind_outcome nullOracle ["SM0"] 0 "SM0" "SM" 0 1
      (by decide) (by decide) (by decide) (by decide)).2 "SM" [("SM0", 0, 1)] 0 1
      (by decide) (by decide)
